import Mathlib

/-!
Verification development for the Easy_EDA_PCB_Beautify extension.

This file gives a shallow embedding of the three core subsystems of the
repository and proves properties of the embedded code:

* the snapshot/undo history manager (`src/lib/snapshot.ts`),
* the width-transition generator (`src/lib/widthTransition.ts`),
* the corner-rounding pass `smoothRouting` together with the math kernel
  (`src/lib/math.ts`).

Numbers that the TypeScript source manipulates only by comparison and
exact arithmetic (snapshot records, path-extraction coordinates) are
embedded as rationals; the trigonometric corner geometry is embedded over
the real numbers.  Primitive-store identifiers are opaque handles in the
source and are embedded as natural numbers.  Host-UI calls (toasts,
dialogs, progress bars) have no effect on the data and are dropped;
dialog answers and the data the host returns (current board id/name,
captured line/arc records, `Date.now()`) are passed as explicit
parameters.
-/

namespace EasyEDA

/- `List.mergeSort` (the model of `Array.prototype.sort`) and the
rational arithmetic operations are sealed by default; unseal them so that
concrete snapshot comparisons evaluate by kernel reduction. -/
unseal List.merge List.mergeSort Rat.add Rat.sub Rat.mul Rat.inv

/-- Embedding of `isClose` from `src/lib/math.ts` at rational inputs:
`Math.abs(a - b) < eps`. -/
def isClose (a b eps : ℚ) : Bool := |a - b| < eps

/-- `isClose` with its default threshold `eps = 0.001`. -/
def isCloseD (a b : ℚ) : Bool := isClose a b (1/1000)

/-- A flattened line record as stored inside a snapshot
(`extractPrimitiveData` with `type = 'line'` in `snapshot.ts`). -/
structure LineRec where
  id : ℕ
  net : String
  layer : ℕ
  startX : ℚ
  startY : ℚ
  endX : ℚ
  endY : ℚ
  lineWidth : ℚ
deriving DecidableEq

/-- A flattened arc record as stored inside a snapshot
(`extractPrimitiveData` with `type = 'arc'`). -/
structure ArcRec where
  id : ℕ
  net : String
  layer : ℕ
  startX : ℚ
  startY : ℚ
  endX : ℚ
  endY : ℚ
  arcAngle : ℚ
  lineWidth : ℚ
deriving DecidableEq

/-- `isLineEqual` from `snapshot.ts`: id, layer and net must match exactly,
all coordinates and the width within the default `isClose` tolerance. -/
def isLineEqual (a b : LineRec) : Bool :=
  a.id == b.id && a.layer == b.layer && a.net == b.net &&
  isCloseD a.startX b.startX && isCloseD a.startY b.startY &&
  isCloseD a.endX b.endX && isCloseD a.endY b.endY &&
  isCloseD a.lineWidth b.lineWidth

/-- `isArcEqual` from `snapshot.ts`: like `isLineEqual` plus the sweep
angle. -/
def isArcEqual (a b : ArcRec) : Bool :=
  a.id == b.id && a.layer == b.layer && a.net == b.net &&
  isCloseD a.startX b.startX && isCloseD a.startY b.startY &&
  isCloseD a.endX b.endX && isCloseD a.endY b.endY &&
  isCloseD a.arcAngle b.arcAngle &&
  isCloseD a.lineWidth b.lineWidth

/-- The comparator `(a, b) => (a.id > b.id ? 1 : -1)` of
`isSnapshotDataIdentical` orders `a` before `b` exactly when
`a.id ≤ b.id`; JavaScript `Array.prototype.sort` is a stable sort, which
`List.mergeSort` models. -/
def sortLinesById (l : List LineRec) : List LineRec :=
  l.mergeSort (fun a b => a.id ≤ b.id)

/-- Arc counterpart of `sortLinesById`. -/
def sortArcsById (l : List ArcRec) : List ArcRec :=
  l.mergeSort (fun a b => a.id ≤ b.id)

/-- A routing snapshot (`RoutingSnapshot` in `snapshot.ts`); `id` and
`timestamp` are both taken from `Date.now()` at creation. -/
structure RoutingSnapshot where
  id : ℕ
  name : String
  timestamp : ℕ
  pcbId : String
  isManual : Bool
  lines : List LineRec
  arcs : List ArcRec
deriving DecidableEq

/-- `isSnapshotDataIdentical`: equal list lengths, then the two line lists
sorted by id are pointwise `isLineEqual`, and likewise for arcs. -/
def isSnapshotDataIdentical (A B : RoutingSnapshot) : Bool :=
  A.lines.length == B.lines.length &&
  A.arcs.length == B.arcs.length &&
  ((sortLinesById A.lines).zip (sortLinesById B.lines)).all
    (fun p => isLineEqual p.1 p.2) &&
  ((sortArcsById A.arcs).zip (sortArcsById B.arcs)).all
    (fun p => isArcEqual p.1 p.2)

/-- Per-board snapshot store (`PcbSnapshotStorage`), most recent first. -/
structure PcbSnapshotStorage where
  manual : List RoutingSnapshot
  auto : List RoutingSnapshot
deriving DecidableEq

/-- `SNAPSHOT_LIMIT` from `snapshot.ts`. -/
def SNAPSHOT_LIMIT : ℕ := 20

/-- The global storage `SnapshotStorageV2` is a JavaScript object keyed by
board id; embedded as an association list in property-insertion order. -/
def StorageV2 : Type := List (String × PcbSnapshotStorage)

/-- Reading `data[pcbId]` from the storage object. -/
def storeLookup (data : List (String × PcbSnapshotStorage)) (k : String) :
    Option PcbSnapshotStorage :=
  (data.find? (fun kv => kv.1 == k)).map (fun kv => kv.2)

/-- Writing `data[pcbId] = v`: an existing key keeps its position, a fresh
key is appended (JavaScript property order). -/
def storeSet : List (String × PcbSnapshotStorage) → String → PcbSnapshotStorage →
    List (String × PcbSnapshotStorage)
  | [], k, v => [(k, v)]
  | kv :: rest, k, v =>
      if kv.1 == k then (k, v) :: rest else kv :: storeSet rest k v

/-- The process-wide mutable state owned by the snapshot manager: the
cached storage object, the undo cursor (`LAST_RESTORED_KEY`) and the undo
reentrancy lock (`UNDO_LOCK_KEY`), all anchored on the `eda` global. -/
structure SnapState where
  storage : List (String × PcbSnapshotStorage)
  lastRestoredId : Option ℕ
  undoing : Bool
deriving DecidableEq

/-- `Array.prototype.findIndex`, with `-1` embedded as `none`. -/
def findIdxJS {α : Type} (p : α → Bool) : List α → Option ℕ
  | [] => none
  | a :: l => if p a then some 0 else (findIdxJS p l).map (fun n => n + 1)

/-- Indexing `l[n]` on a JavaScript array, `undefined` embedded as
`none`. -/
def nthJS {α : Type} : List α → ℕ → Option α
  | [], _ => none
  | a :: _, 0 => some a
  | _ :: l, n + 1 => nthJS l n

/-- Name prefixing in `createSnapshot`: a non-empty board name is
prepended as `"[name] "`. -/
def finalName (pcbName name : String) : String :=
  if pcbName == "" then name else "[" ++ pcbName ++ "] " ++ name

/-- The snapshot value `createSnapshot` assembles from the captured board
state before touching the store. -/
def mkSnapshot (now : ℕ) (pcbId pcbName name : String) (isManual : Bool)
    (lines : List LineRec) (arcs : List ArcRec) : RoutingSnapshot :=
  { id := now
    name := finalName pcbName name
    timestamp := now
    pcbId := pcbId
    isManual := isManual
    lines := lines
    arcs := arcs }

/-- Branch truncation in `createSnapshot`: with a non-null undo cursor
found at index `idx > 0` of the automatic list, `auto.splice(0, idx)`
drops every automatic snapshot newer than the cursor's target. -/
def truncateOnCursor (ps : PcbSnapshotStorage) (cursor : Option ℕ) :
    PcbSnapshotStorage :=
  match cursor with
  | none => ps
  | some rid =>
      match findIdxJS (fun s => s.id == rid) ps.auto with
      | some idx => if 0 < idx then { ps with auto := ps.auto.drop idx } else ps
      | none => ps

/-- `createSnapshot` from `snapshot.ts`.  The captured board state
(`pcb_PrimitiveLine.getAll` / `pcb_PrimitiveArc.getAll` already flattened
by `extractPrimitiveData`), the current board identity and `Date.now()`
are parameters.  Returns the updated manager state and the created
snapshot (`null` embedded as `none` when the capture was skipped as a
duplicate of the front of the target list).  On the duplicate-skip path
the in-memory cache still holds the branch truncation and the key created
for a fresh board, because the source mutates the cached object in place
before the duplicate check. -/
def createSnapshot (st : SnapState) (pcbId pcbName : String)
    (lines : List LineRec) (arcs : List ArcRec) (now : ℕ) (name : String)
    (isManual : Bool) : SnapState × Option RoutingSnapshot :=
  let snapshot := mkSnapshot now pcbId pcbName name isManual lines arcs
  let ps0 := (storeLookup st.storage pcbId).getD { manual := [], auto := [] }
  let ps := truncateOnCursor ps0 st.lastRestoredId
  let targetList := if isManual then ps.manual else ps.auto
  let newTarget := (snapshot :: targetList).take SNAPSHOT_LIMIT
  let ps' := if isManual then { ps with manual := newTarget }
             else { ps with auto := newTarget }
  let inserted : SnapState × Option RoutingSnapshot :=
    ({ storage := storeSet st.storage pcbId ps', lastRestoredId := none,
       undoing := st.undoing }, some snapshot)
  match targetList with
  | latest :: _ =>
      if isSnapshotDataIdentical latest snapshot then
        ({ storage := storeSet st.storage pcbId ps, lastRestoredId := none,
           undoing := st.undoing }, none)
      else inserted
  | [] => inserted

/-- The brute-force id search at the top of `restoreSnapshot`: every
board's store is scanned in storage order, manual list before automatic
list. -/
def findSnapshot : List (String × PcbSnapshotStorage) → ℕ → Option RoutingSnapshot
  | [], _ => none
  | kv :: rest, sid =>
      match kv.2.manual.find? (fun s => s.id == sid) with
      | some s => some s
      | none =>
          match kv.2.auto.find? (fun s => s.id == sid) with
          | some s => some s
          | none => findSnapshot rest sid

/-- One JavaScript `Map` entry list (insertion ordered). -/
def MapJS (α : Type) : Type := List (ℕ × α)

/-- `Map.prototype.get` composed with `has` (the source always guards
`get` with `has`). -/
def mapGet {α : Type} (m : List (ℕ × α)) (k : ℕ) : Option α :=
  (m.find? (fun kv => kv.1 == k)).map (fun kv => kv.2)

/-- `Map.prototype.set`: an existing key keeps its position, a fresh key
is appended. -/
def mapSet {α : Type} : List (ℕ × α) → ℕ → α → List (ℕ × α)
  | [], k, v => [(k, v)]
  | kv :: rest, k, v =>
      if kv.1 == k then (k, v) :: rest else kv :: mapSet rest k v

/-- `Map.prototype.delete`. -/
def mapErase {α : Type} (m : List (ℕ × α)) (k : ℕ) : List (ℕ × α) :=
  m.filter (fun kv => !(kv.1 == k))

/-- `new Map(items.map(x => [key x, x]))`. -/
def mapOfList {α : Type} (key : α → ℕ) (l : List α) : List (ℕ × α) :=
  l.foldl (fun m x => mapSet m (key x) x) []

/-- One step of the diff loop in `restoreSnapshot`: a snapshot record with
a current record of the same id is kept when equal, scheduled for
delete-and-recreate when different; a record with a fresh id is scheduled
for creation; matched current records leave the map. -/
def diffStep {α : Type} (isEq : α → α → Bool) (key : α → ℕ)
    (acc : List ℕ × List α × List (ℕ × α)) (snapItem : α) :
    List ℕ × List α × List (ℕ × α) :=
  match mapGet acc.2.2 (key snapItem) with
  | some cur =>
      if isEq snapItem cur then
        (acc.1, acc.2.1, mapErase acc.2.2 (key snapItem))
      else
        (acc.1 ++ [key snapItem], acc.2.1 ++ [snapItem],
         mapErase acc.2.2 (key snapItem))
  | none => (acc.1, acc.2.1 ++ [snapItem], acc.2.2)

/-- The full per-kind diff of `restoreSnapshot`: run `diffStep` over the
snapshot's records, then schedule every unmatched current id for
deletion. -/
def computeDiffPart {α : Type} (isEq : α → α → Bool) (key : α → ℕ)
    (snapItems : List α) (current : List α) : List ℕ × List α :=
  let res := snapItems.foldl (diffStep isEq key) ([], [], mapOfList key current)
  (res.1 ++ res.2.2.map (fun kv => kv.1), res.2.1)

/-- The create/delete schedule `restoreSnapshot` executes against the
primitive store (deletions first, then creations). -/
structure RestoreDiff where
  linesToDelete : List ℕ
  linesToCreate : List LineRec
  arcsToDelete : List ℕ
  arcsToCreate : List ArcRec
deriving DecidableEq

/-- `restoreSnapshot` from `snapshot.ts`.  Board identity, the current
board's flattened records, the answers of the two confirmation dialogs
and the `Date.now()` used by a forced pre-restore backup are parameters.
Returns the new manager state, the source's boolean result, and the diff
it executed (`none` when it returned before diffing).  The actual
primitive deletions/creations act on the external board and are returned
rather than applied. -/
def restoreSnapshot (st : SnapState) (currentPcbId currentPcbName : String)
    (currentLines : List LineRec) (currentArcs : List ArcRec)
    (confirmMismatch confirmNormal : Bool) (backupNow : ℕ)
    (snapshotId : ℕ) (showToast requireConfirmation : Bool) :
    SnapState × Bool × Option RestoreDiff :=
  match findSnapshot st.storage snapshotId with
  | none => (st, false, none)
  | some snapshot =>
      let isMismatch := !(snapshot.pcbId == "") && !(snapshot.pcbId == currentPcbId)
      let confirmed :=
        if isMismatch then confirmMismatch
        else if requireConfirmation then confirmNormal
        else true
      if !confirmed then (st, false, none)
      else
        let st1 :=
          if isMismatch then
            (createSnapshot st currentPcbId currentPcbName currentLines
              currentArcs backupNow "Backup (Pre-Force Restore)" false).1
          else st
        let lineDiff := computeDiffPart isLineEqual (fun l => l.id)
          snapshot.lines currentLines
        let arcDiff := computeDiffPart isArcEqual (fun a => a.id)
          snapshot.arcs currentArcs
        let _ := showToast
        ({ st1 with lastRestoredId := some snapshot.id }, true,
         some { linesToDelete := lineDiff.1, linesToCreate := lineDiff.2,
                arcsToDelete := arcDiff.1, arcsToCreate := arcDiff.2 })

/-- `deleteSnapshot`: the id is filtered out of both lists of every
board. -/
def deleteSnapshot (st : SnapState) (snapshotId : ℕ) : SnapState :=
  { st with storage := st.storage.map (fun kv =>
      (kv.1,
       { manual := kv.2.manual.filter (fun s => !(s.id == snapshotId))
         auto := kv.2.auto.filter (fun s => !(s.id == snapshotId)) })) }

/-- `clearSnapshots`: empties the current board's manual list. -/
def clearSnapshots (st : SnapState) (currentPcbId : String) : SnapState :=
  match storeLookup st.storage currentPcbId with
  | some ps =>
      { st with storage := storeSet st.storage currentPcbId { ps with manual := [] } }
  | none => st

/-- The test `/\sAfter$/.test(name)` guarding the first undo: the name
ends in `"After"` preceded by a whitespace character (an empty name is
also rejected by the preceding truthiness check). -/
def nameEndsAfter (s : String) : Bool :=
  match s.data.reverse with
  | 'r' :: 'e' :: 't' :: 'f' :: 'A' :: c :: _ => c.isWhitespace
  | _ => false

/-- Observable outcome of `undoLastOperation` (which of the source's
return paths and toasts was taken). -/
inductive UndoResult
  | locked
  | noHistory
  | endOfHistory
  | restoreFailed
  | undone (sid : ℕ)
deriving DecidableEq

/-- `undoLastOperation` from `snapshot.ts`: pick the undo target from the
current board's automatic list using the cursor (or the `After`-name
heuristic on the first undo) and restore it.  The reentrancy lock is set
for the duration of the call and released in `finally`, so the state it
returns carries the lock bit it started with. -/
def undoLastOperation (st : SnapState) (currentPcbId currentPcbName : String)
    (currentLines : List LineRec) (currentArcs : List ArcRec)
    (confirmMismatch confirmNormal : Bool) (backupNow : ℕ) :
    SnapState × UndoResult :=
  if st.undoing then (st, UndoResult.locked)
  else
    match storeLookup st.storage currentPcbId with
    | none => (st, UndoResult.noHistory)
    | some ps =>
        match ps.auto with
        | [] => (st, UndoResult.noHistory)
        | first :: _ =>
            let startIndex :=
              match st.lastRestoredId with
              | some rid =>
                  match findIdxJS (fun s => s.id == rid) ps.auto with
                  | some idx => idx + 1
                  | none => 0
              | none => if nameEndsAfter first.name then 1 else 0
            match nthJS ps.auto startIndex with
            | some target =>
                let r := restoreSnapshot st currentPcbId currentPcbName
                  currentLines currentArcs confirmMismatch confirmNormal
                  backupNow target.id false false
                if r.2.1 then (r.1, UndoResult.undone target.id)
                else (r.1, UndoResult.restoreFailed)
            | none => (st, UndoResult.endOfHistory)

/-- The operations the snapshot manager exposes, for stating invariants
that every operation preserves. -/
inductive StoreOp
  | create (pcbId pcbName : String) (lines : List LineRec) (arcs : List ArcRec)
      (now : ℕ) (name : String) (isManual : Bool)
  | restore (currentPcbId currentPcbName : String) (currentLines : List LineRec)
      (currentArcs : List ArcRec) (confirmMismatch confirmNormal : Bool)
      (backupNow : ℕ) (snapshotId : ℕ) (showToast requireConfirmation : Bool)
  | del (snapshotId : ℕ)
  | clear (currentPcbId : String)
  | undo (currentPcbId currentPcbName : String) (currentLines : List LineRec)
      (currentArcs : List ArcRec) (confirmMismatch confirmNormal : Bool)
      (backupNow : ℕ)

/-- State effect of one snapshot-manager operation. -/
def applyOp (st : SnapState) : StoreOp → SnapState
  | StoreOp.create a b c d e f g => (createSnapshot st a b c d e f g).1
  | StoreOp.restore a b c d e f g h i j =>
      (restoreSnapshot st a b c d e f g h i j).1
  | StoreOp.del sid => deleteSnapshot st sid
  | StoreOp.clear p => clearSnapshots st p
  | StoreOp.undo a b c d e f g => (undoLastOperation st a b c d e f g).1

/-- Both per-board lists respect the `SNAPSHOT_LIMIT` cap. -/
def capOKb (st : SnapState) : Bool :=
  st.storage.all (fun kv =>
    kv.2.manual.length ≤ SNAPSHOT_LIMIT && kv.2.auto.length ≤ SNAPSHOT_LIMIT)

/-- The automatic list of one board as the settings UI reads it. -/
def autoOf (st : SnapState) (pcbId : String) : List RoutingSnapshot :=
  ((storeLookup st.storage pcbId).getD { manual := [], auto := [] }).auto

/-- The list `createSnapshot` inserts into. -/
def targetListOf (st : SnapState) (pcbId : String) (isManual : Bool) :
    List RoutingSnapshot :=
  let ps := (storeLookup st.storage pcbId).getD { manual := [], auto := [] }
  if isManual then ps.manual else ps.auto

/-- The sequence of the branch-truncation scenario: automatic snapshot,
automatic snapshot, undo, automatic snapshot, all on one board starting
from an empty store. -/
def undoScenario (b : String) (L1 L2 L3 : List LineRec)
    (A1 A2 A3 : List ArcRec) (t1 t2 t3 : ℕ) (n1 n2 n3 : String)
    (curL : List LineRec) (curA : List ArcRec) : SnapState :=
  let st0 : SnapState := { storage := [], lastRestoredId := none, undoing := false }
  let st1 := (createSnapshot st0 b "" L1 A1 t1 n1 false).1
  let st2 := (createSnapshot st1 b "" L2 A2 t2 n2 false).1
  let st3 := (undoLastOperation st2 b "" curL curA false false 0).1
  (createSnapshot st3 b "" L3 A3 t3 n3 false).1

/-! ### Geometry kernel (`src/lib/math.ts`) over the reals -/

/-- A point with real coordinates (`Point` in `math.ts`), for the
trigonometric corner geometry and the width-transition geometry. -/
structure RPoint where
  x : ℝ
  y : ℝ

noncomputable section

/-- `dist` from `math.ts`. -/
def dist (p1 p2 : RPoint) : ℝ :=
  Real.sqrt ((p1.x - p2.x) ^ 2 + (p1.y - p2.y) ^ 2)

/-- `lerp` from `math.ts`. -/
def lerp (p1 p2 : RPoint) (t : ℝ) : RPoint :=
  { x := p1.x + (p2.x - p1.x) * t
    y := p1.y + (p2.y - p1.y) * t }

/-- `getAngle` from `math.ts` in degrees; `Math.atan2(y, x)` is the
argument of the complex number `x + y*I`. -/
def getAngle (p1 p2 : RPoint) : ℝ :=
  Complex.arg { re := p2.x - p1.x, im := p2.y - p1.y } * 180 / Real.pi

/-- Closed form of the two `while` loops of `getAngleBetween` that shift
an angle by multiples of 360 into `(-180, 180]`: the loops terminate at
the unique representative of `a` modulo 360 in that interval, which is
`a - 360 * ⌈a / 360 - 1 / 2⌉`. -/
def normDeg (a : ℝ) : ℝ := a - 360 * ⌈a / 360 - 1 / 2⌉

/-- `getAngleBetween` from `math.ts`: signed angle from `v1` to `v2` in
`(-180, 180]` degrees. -/
def getAngleBetween (v1 v2 : RPoint) : ℝ :=
  normDeg (getAngle { x := 0, y := 0 } v2 - getAngle { x := 0, y := 0 } v1)

/-- `smootherStep` from `math.ts`: the quintic easing
`t³ (t (6t − 15) + 10)`. -/
def smootherStep (t : ℝ) : ℝ := t * t * t * (t * (t * 6 - 15) + 10)

/-! ### Corner rounding: the per-corner core of `smoothRouting` -/

/-- The data `smoothRouting` computes for one interior corner when it does
emit an arc: the clamped tangent distance, the two tangent points and the
signed sweep angle. -/
structure CornerOut where
  actualD : ℝ
  pStart : RPoint
  pEnd : RPoint
  swept : ℝ

open Classical in
/-- The per-corner computation of `smoothRouting` (loop body over interior
points): included angle by clamped-dot-product arccosine, skip when the
corner is nearly straight (>170°) or a reversal (<10°), tangent distance
`d = radius / tan(angle / 2)` clamped to 50% of the shorter adjacent
segment, and no emission when the clamped distance is ≤ 0.01. -/
def cornerData (pPrev pCorner pNext : RPoint) (radius : ℝ) : Option CornerOut :=
  let v1 : RPoint := { x := pPrev.x - pCorner.x, y := pPrev.y - pCorner.y }
  let v2 : RPoint := { x := pNext.x - pCorner.x, y := pNext.y - pCorner.y }
  let mag1 := Real.sqrt (v1.x ^ 2 + v1.y ^ 2)
  let mag2 := Real.sqrt (v2.x ^ 2 + v2.y ^ 2)
  let dot := (v1.x * v2.x + v1.y * v2.y) / (mag1 * mag2)
  let angleRad := Real.arccos (max (-1) (min 1 dot))
  let angleDeg := angleRad * 180 / Real.pi
  if angleDeg > 170 ∨ angleDeg < 10 then none
  else
    let halfAngle := angleRad / 2
    let d := radius / Real.tan halfAngle
    let maxD := min mag1 mag2 * 0.5
    let actualD := min d maxD
    if actualD > 0.01 then
      some { actualD := actualD
             pStart := lerp pCorner pPrev (actualD / mag1)
             pEnd := lerp pCorner pNext (actualD / mag2)
             swept := getAngleBetween { x := -v1.x, y := -v1.y } v2 }
    else none

/-- An entry of the `newPath` array built by `smoothRouting`. -/
inductive PathItem
  | line (s e : RPoint)
  | arc (s e : RPoint) (angle : ℝ)

/-- A primitive actually created in the board store by `smoothRouting`
(all with the path's width). -/
inductive Prim
  | line (s e : RPoint) (width : ℝ)
  | arc (s e : RPoint) (angle : ℝ) (width : ℝ)

/-- The interior-corner loop of `smoothRouting`: walk the sliding window
of three consecutive points, carrying the running cursor
(`currentStart`); every emitted arc advances the cursor to its second
tangent point, a skipped corner leaves it in place. -/
def roundLoop (radius : ℝ) : RPoint → List RPoint → List PathItem × RPoint
  | cur, p0 :: p1 :: p2 :: rest =>
      match cornerData p0 p1 p2 radius with
      | some out =>
          let r := roundLoop radius out.pEnd (p1 :: p2 :: rest)
          (PathItem.line cur out.pStart ::
             PathItem.arc out.pStart out.pEnd out.swept :: r.1, r.2)
      | none => roundLoop radius cur (p1 :: p2 :: rest)
  | cur, _ => ([], cur)

open Classical in
/-- The creation loop of `smoothRouting`: each `newPath` entry becomes a
store primitive carrying the path width, except that degenerate lines
(length ≤ 0.001) are not created. -/
def createPrims (width : ℝ) (items : List PathItem) : List Prim :=
  items.foldr (fun it acc =>
    match it with
    | PathItem.line s e =>
        if dist s e > 0.001 then Prim.line s e width :: acc else acc
    | PathItem.arc s e a => Prim.arc s e a width :: acc) []

/-- The per-path geometry replacement of `smoothRouting`: for a path of at
least three points, round every interior corner and close with a final
straight segment from the cursor to the last point, then create the
primitives. -/
def smoothPathPrims (points : List RPoint) (radius width : ℝ) : List Prim :=
  match points with
  | [] => []
  | p :: rest =>
      if 3 ≤ (p :: rest).length then
        let r := roundLoop radius p (p :: rest)
        createPrims width
          (r.1 ++ [PathItem.line r.2 ((p :: rest).getLast (by simp))])
      else []

end

/-! ### Path extraction of `smoothRouting` (exact coordinate keys) -/

/-- A point with rational coordinates.  The path extraction of
`smoothRouting` compares coordinates only through the string key
`"x,y"`, i.e. exactly; rationals make that comparison decidable. -/
structure QPoint where
  x : ℚ
  y : ℚ
deriving DecidableEq

/-- Casting an extraction point into the real-valued geometry. -/
noncomputable def toR (p : QPoint) : RPoint := { x := (p.x : ℝ), y := (p.y : ℝ) }

/-- One track segment as `smoothRouting` collects it into `segs`: the two
endpoints, the line width, the primitive id, and for virtual
polyline-derived segments the owning polyline's id. -/
structure Seg where
  p1 : QPoint
  p2 : QPoint
  width : ℚ
  id : ℕ
  isPolySeg : Bool
  polyOwner : Option ℕ
deriving DecidableEq

/-- The adjacency list `connections.get(key)` for an endpoint key: every
segment is pushed once for its start key and once for its end key, in
segment order. -/
def conns (segs : List Seg) (p : QPoint) : List Seg :=
  segs.flatMap (fun s =>
    (if s.p1 = p then [s] else []) ++ (if s.p2 = p then [s] else []))

/-- The inner `for` scan over one endpoint's connection list: the first
unused segment incident to the key is followed and its far endpoint
returned. -/
def stepFrom (segs : List Seg) (used : List ℕ) (key : QPoint) :
    Option (QPoint × ℕ) :=
  match (conns segs key).find? (fun s => !(used.contains s.id)) with
  | some s => some (if s.p1 = key then s.p2 else s.p1, s.id)
  | none => none

/-- The `while (extended)` loop growing one path from both ends.  Each
iteration consumes one previously unused segment, so the loop makes at
most `segs.length` extensions; running it on that much fuel yields the
loop's exit state. -/
def extendLoop (segs : List Seg) :
    ℕ → List ℕ → List QPoint → List ℕ → List QPoint × List ℕ × List ℕ
  | 0, used, pts, ids => (pts, ids, used)
  | fuel + 1, used, pts, ids =>
      match stepFrom segs used (pts.getLastD { x := 0, y := 0 }) with
      | some r => extendLoop segs fuel (r.2 :: used) (pts ++ [r.1]) (ids ++ [r.2])
      | none =>
          match stepFrom segs used (pts.headD { x := 0, y := 0 }) with
          | some r => extendLoop segs fuel (r.2 :: used) (r.1 :: pts) (ids ++ [r.2])
          | none => (pts, ids, used)

/-- One reconstructed path: its ordered points, the ids of the consumed
segments (`idsToDelete`) and the seed segment's width. -/
structure RoutePath where
  points : List QPoint
  ids : List ℕ
  width : ℚ
deriving DecidableEq

/-- The outer extraction loop of `smoothRouting`: seed a path at every
still-unused segment, grow it with `extendLoop`, and keep it when it has
at least three points; consumed segments stay used either way. -/
def extractGo (segs : List Seg) : List Seg → List ℕ → List RoutePath
  | [], _ => []
  | s :: rest, used =>
      if used.contains s.id then extractGo segs rest used
      else
        let r := extendLoop segs segs.length (s.id :: used) [s.p1, s.p2] [s.id]
        if 3 ≤ r.1.length then
          { points := r.1, ids := r.2.1, width := s.width } ::
            extractGo segs rest r.2.2
        else extractGo segs rest r.2.2

/-- Path extraction for one (net, layer) group of `smoothRouting`. -/
def extractPaths (segs : List Seg) : List RoutePath := extractGo segs segs []

/-- The deletion split of `smoothRouting` under `replaceOriginal`: ids of
plain line segments are deleted directly. -/
def lineIdsToDelete (segs : List Seg) (ids : List ℕ) : List ℕ :=
  ids.filter (fun i =>
    match segs.find? (fun s => s.id == i) with
    | some s => !s.isPolySeg
    | none => true)

/-- The deletion split of `smoothRouting` under `replaceOriginal`: the
owning polyline ids of virtual segments, deduplicated in insertion order
(the `Set` of the source). -/
def polyIdsToDelete (segs : List Seg) (ids : List ℕ) : List ℕ :=
  ids.foldl (fun acc i =>
    match segs.find? (fun s => s.id == i) with
    | some s =>
        if s.isPolySeg then
          match s.polyOwner with
          | some o => if acc.contains o then acc else acc ++ [o]
          | none => acc
        else acc
    | none => acc) []

/-- The whole rounding pass on one extracted group, with the corner radius
already converted into board units: for every reconstructed path, the
created primitives and the two deletion id lists. -/
noncomputable def smoothGroup (segs : List Seg) (radius : ℝ) :
    List (List Prim × List ℕ × List ℕ) :=
  (extractPaths segs).map (fun path =>
    (smoothPathPrims (path.points.map toR) radius (path.width : ℝ),
     lineIdsToDelete segs path.ids, polyIdsToDelete segs path.ids))

/-! ### Width-transition generator (`src/lib/widthTransition.ts`) -/

/-- One segment of a created taper chain (one
`pcb_PrimitiveLine.create` call of `createWidthTransition`). -/
structure WTSeg where
  p1 : RPoint
  p2 : RPoint
  width : ℝ
  layer : ℕ
  net : String

open Classical in
/-- The `transitionLength` computed by `createWidthTransition`: the ideal
length `widthDiff * ratio` (with the source's `|| 1.5` fallback for a
falsy ratio setting), capped at 90% of the narrow track's length. -/
noncomputable def wtLength (width1 width2 narrowTrackLength ratioSetting : ℝ) : ℝ :=
  let wideWidth := max width1 width2
  let narrowWidth := min width1 width2
  let widthDiff := wideWidth - narrowWidth
  let idealLength := widthDiff * (if ratioSetting = 0 then 1.5 else ratioSetting)
  let maxAllowedLength := narrowTrackLength * 0.9
  min idealLength maxAllowedLength

open Classical in
/-- The `segments` count computed by `createWidthTransition`: at least 5,
enough for a 2-unit step in length and in width, at most the configured
maximum (`|| 30` fallback), reduced to at most 6 for transitions shorter
than 5 units. -/
noncomputable def wtSegments (width1 width2 narrowTrackLength ratioSetting : ℝ)
    (maxSegSetting : ℕ) : ℕ :=
  let widthDiff := max width1 width2 - min width1 width2
  let transitionLength := wtLength width1 width2 narrowTrackLength ratioSetting
  let minStep : ℝ := 2
  let segmentsByLen := (⌈transitionLength / minStep⌉).toNat
  let segmentsByWidth := (⌈widthDiff / minStep⌉).toNat
  let maxSegments := if maxSegSetting = 0 then 30 else maxSegSetting
  let segments0 := min maxSegments (max 5 (max segmentsByLen segmentsByWidth))
  if transitionLength < 5 then min segments0 6 else segments0

open Classical in
/-- `createWidthTransition` from `widthTransition.ts`: from the junction
point along the (normalized) direction of the narrow track, a chain of
`wtSegments` straight sub-segments of total length `wtLength` whose
widths follow `smootherStep` evaluated at each sub-segment's end
parameter.  Settings are passed as the ratio and the maximum segment
count. -/
noncomputable def createWidthTransition (point direction : RPoint)
    (width1 width2 : ℝ) (layer : ℕ) (net : String)
    (narrowTrackLength : ℝ) (ratioSetting : ℝ) (maxSegSetting : ℕ) :
    List WTSeg :=
  let len := Real.sqrt (direction.x ^ 2 + direction.y ^ 2)
  if len < 0.001 then []
  else
    let ux := direction.x / len
    let uy := direction.y / len
    let wideWidth := max width1 width2
    let narrowWidth := min width1 width2
    let widthDiff := wideWidth - narrowWidth
    let transitionLength := wtLength width1 width2 narrowTrackLength ratioSetting
    if transitionLength < 1 then []
    else
      let segments := wtSegments width1 width2 narrowTrackLength ratioSetting
        maxSegSetting
      (List.range segments).map (fun (i : ℕ) =>
        let t1 := (i : ℝ) / (segments : ℝ)
        let t2 := ((i : ℝ) + 1) / (segments : ℝ)
        let bezierT := smootherStep t2
        { p1 := { x := point.x + ux * (t1 * transitionLength)
                  y := point.y + uy * (t1 * transitionLength) }
          p2 := { x := point.x + ux * (t2 * transitionLength)
                  y := point.y + uy * (t2 * transitionLength) }
          width := wideWidth - widthDiff * bezierT
          layer := layer
          net := net })

/-- Total copper length of a created chain: the sum of its sub-segment
lengths. -/
noncomputable def chainLength (segs : List WTSeg) : ℝ :=
  (segs.map (fun s => dist s.p1 s.p2)).sum

/-! ### Concrete scenario values used by witnesses and counterexamples -/

/-- Front snapshot of the automatic list in the duplicate-create
scenario with a pending undo cursor. -/
def c5Front : RoutingSnapshot :=
  mkSnapshot 10 "b" "" "s0" false [⟨1, "n", 1, 0, 0, 1, 0, 2⟩] []

/-- Older snapshot that the undo cursor of the scenario points at. -/
def c5Older : RoutingSnapshot :=
  mkSnapshot 5 "b" "" "s1" false [⟨1, "n", 1, 0, 0, 1, 0, 3⟩] []

/-- Store state of the duplicate-create scenario: two automatic
snapshots, undo cursor on the older one. -/
def c5State : SnapState :=
  { storage := [("b", { manual := [], auto := [c5Front, c5Older] })]
    lastRestoredId := some 5
    undoing := false }

/-- Captured board lines of the scenario, identical to the records of
`c5Front`. -/
def c5Capture : List LineRec := [⟨1, "n", 1, 0, 0, 1, 0, 2⟩]

/-- Front snapshot of a full (20-entry) automatic list. -/
def c9Front : RoutingSnapshot :=
  mkSnapshot 100 "b" "" "f" false [⟨1, "n", 0, 0, 0, 1, 0, 1⟩] []

/-- Nineteen older snapshots filling the automatic list to the cap. -/
def c9Rest : List RoutingSnapshot :=
  (List.range 19).map (fun i => mkSnapshot i "b" "" "s" false [] [])

/-- A store whose automatic list is exactly at the `SNAPSHOT_LIMIT`. -/
def c9State : SnapState :=
  { storage := [("b", { manual := [], auto := c9Front :: c9Rest })]
    lastRestoredId := none
    undoing := false }

/-- Single automatic snapshot of the stale-cursor undo scenario. -/
def c8Snap : RoutingSnapshot := mkSnapshot 1 "b" "" "S" false [] []

/-- Store state of the stale-cursor undo scenario: one automatic
snapshot, undo cursor holding an id (99) that no snapshot has. -/
def c8State : SnapState :=
  { storage := [("b", { manual := [], auto := [c8Snap] })]
    lastRestoredId := some 99
    undoing := false }

/-! ### Helper lemmas: storage object, sorting, record equality -/

lemma storeSet_lookup_self (data : List (String × PcbSnapshotStorage))
    (k : String) (v : PcbSnapshotStorage) (h : storeLookup data k = some v) :
    storeSet data k v = data := by
  induction data with
  | nil => simp [storeLookup] at h
  | cons kv rest ih =>
      by_cases hk : kv.1 == k
      · rw [storeLookup, List.find?_cons_of_pos rest hk] at h
        simp at h
        have hk' : kv.1 = k := by simpa using hk
        simp [storeSet, hk, Prod.ext_iff, hk'.symm, h]
      · rw [storeLookup, List.find?_cons_of_neg rest hk] at h
        simp [storeSet, hk, ih h]

lemma storeLookup_storeSet (data : List (String × PcbSnapshotStorage))
    (k : String) (v : PcbSnapshotStorage) :
    storeLookup (storeSet data k v) k = some v := by
  induction data with
  | nil => simp [storeSet, storeLookup]
  | cons kv rest ih =>
      by_cases hk : kv.1 == k
      · simp [storeSet, hk, storeLookup]
      · simp only [storeSet, hk, if_false, Bool.false_eq_true]
        rw [storeLookup,
          @List.find?_cons_of_neg _ (fun kv' => kv'.1 == k) kv (storeSet rest k v) hk]
        exact ih

lemma storeSet_all (P : String × PcbSnapshotStorage → Bool)
    (data : List (String × PcbSnapshotStorage)) (k : String)
    (v : PcbSnapshotStorage) (hdata : data.all P = true)
    (hv : P (k, v) = true) : (storeSet data k v).all P = true := by
  induction data with
  | nil => simpa [storeSet]
  | cons kv rest ih =>
      rw [List.all_cons, Bool.and_eq_true] at hdata
      by_cases hk : kv.1 == k
      · simp [storeSet, hk, hv, hdata.2]
      · simp [storeSet, hk, hdata.1, ih hdata.2]

/-- Sorting by a key is permutation invariant when the keys are
pairwise distinct: the JavaScript comparator of
`isSnapshotDataIdentical` then has a unique sorted result. -/
lemma mergeSort_key_eq_of_perm {α : Type} (key : α → ℕ) {l₁ l₂ : List α}
    (h : l₁.Perm l₂) (hn : (l₁.map key).Nodup) :
    l₁.mergeSort (fun a b => key a ≤ key b) =
      l₂.mergeSort (fun a b => key a ≤ key b) := by
  have htrans : ∀ a b c : α, (decide (key a ≤ key b)) = true →
      (decide (key b ≤ key c)) = true → (decide (key a ≤ key c)) = true := by
    intro a b c h1 h2
    simp only [decide_eq_true_eq] at *
    exact le_trans h1 h2
  have htotal : ∀ a b : α,
      ((decide (key a ≤ key b)) || (decide (key b ≤ key a))) = true := by
    intro a b
    simp only [Bool.or_eq_true, decide_eq_true_eq]
    exact Nat.le_total (key a) (key b)
  haveI : IsAntisymm α (fun a b => key a < key b) :=
    ⟨fun a b h1 h2 => absurd h2 (Nat.lt_asymm h1)⟩
  have sortedStrict : ∀ (l : List α), (l.map key).Nodup →
      List.Sorted (fun a b => key a < key b)
        (l.mergeSort (fun a b => key a ≤ key b)) := by
    intro l hl
    have hs := List.sorted_mergeSort htrans htotal l
    have hperm : (l.mergeSort (fun a b => key a ≤ key b)).Perm l :=
      List.mergeSort_perm l _
    have hnodup : ((l.mergeSort (fun a b => key a ≤ key b)).map key).Nodup :=
      ((hperm.map key).nodup_iff).mpr hl
    have hne : List.Pairwise (fun a b => key a ≠ key b)
        (l.mergeSort (fun a b => key a ≤ key b)) :=
      List.pairwise_map.mp hnodup
    have hle : List.Pairwise (fun a b => key a ≤ key b)
        (l.mergeSort (fun a b => key a ≤ key b)) := by
      refine hs.imp ?_
      intro a b hab
      simpa using hab
    exact (hle.and hne).imp (fun hab => lt_of_le_of_ne hab.1 hab.2)
  have hn₂ : (l₂.map key).Nodup := ((h.map key).nodup_iff).mp hn
  refine List.eq_of_perm_of_sorted ?_ (sortedStrict l₁ hn) (sortedStrict l₂ hn₂)
  exact ((List.mergeSort_perm l₁ _).trans h).trans (List.mergeSort_perm l₂ _).symm

lemma isCloseD_self (a : ℚ) : isCloseD a a = true := by
  simp [isCloseD, isClose]

lemma isLineEqual_refl (a : LineRec) : isLineEqual a a = true := by
  simp [isLineEqual, isCloseD_self]

lemma isArcEqual_refl (a : ArcRec) : isArcEqual a a = true := by
  simp [isArcEqual, isCloseD_self]

lemma zip_self_all {α : Type} (f : α → α → Bool) (hf : ∀ a, f a a = true) :
    ∀ l : List α, (l.zip l).all (fun p => f p.1 p.2) = true
  | [] => rfl
  | a :: l => by
      rw [List.zip_cons_cons, List.all_cons]
      simp [hf a, zip_self_all f hf l]

/-- Order-independence of the deep-deduplication comparison: two
snapshots whose line and arc record lists are permutations of each other
(with pairwise distinct record ids) are recognized as identical. -/
lemma isSnapshotDataIdentical_of_perm (A B : RoutingSnapshot)
    (hl : A.lines.Perm B.lines) (ha : A.arcs.Perm B.arcs)
    (hnl : (A.lines.map (fun l => l.id)).Nodup)
    (hna : (A.arcs.map (fun a => a.id)).Nodup) :
    isSnapshotDataIdentical A B = true := by
  have e1 : sortLinesById A.lines = sortLinesById B.lines :=
    mergeSort_key_eq_of_perm (fun l : LineRec => l.id) hl hnl
  have e2 : sortArcsById A.arcs = sortArcsById B.arcs :=
    mergeSort_key_eq_of_perm (fun a : ArcRec => a.id) ha hna
  rw [isSnapshotDataIdentical, e1, e2]
  simp [hl.length_eq, ha.length_eq,
    zip_self_all isLineEqual isLineEqual_refl,
    zip_self_all isArcEqual isArcEqual_refl]

/-! ### C5: deduplication of identical snapshot creations -/

/-- C5 (amended): on a board whose undo cursor is clear, a
`createSnapshot` call that captures line and arc record multisets
identical (up to reordering, with pairwise distinct record ids) to the
front snapshot of the target list inserts nothing, leaves the manager
state unchanged and returns `null`.  (The cursor-clear condition is
forced: with a pending undo cursor the call first truncates the
automatic list, so the store can change even though the call still
returns `null`.) -/
theorem createSnapshot_dedup_noop_of_cursor_clear (st : SnapState)
    (pcbId pcbName : String) (lines : List LineRec) (arcs : List ArcRec)
    (now : ℕ) (name : String) (isManual : Bool) (ps : PcbSnapshotStorage)
    (front : RoutingSnapshot) (rest : List RoutingSnapshot)
    (hcur : st.lastRestoredId = none)
    (hps : storeLookup st.storage pcbId = some ps)
    (hfront : (if isManual then ps.manual else ps.auto) = front :: rest)
    (hl : lines.Perm front.lines) (ha : arcs.Perm front.arcs)
    (hnl : (front.lines.map (fun l => l.id)).Nodup)
    (hna : (front.arcs.map (fun a => a.id)).Nodup) :
    createSnapshot st pcbId pcbName lines arcs now name isManual = (st, none) := by
  have hid : isSnapshotDataIdentical front
      (mkSnapshot now pcbId pcbName name isManual lines arcs) = true := by
    refine isSnapshotDataIdentical_of_perm _ _ ?_ ?_ hnl hna
    · simpa [mkSnapshot] using hl.symm
    · simpa [mkSnapshot] using ha.symm
  have hset : storeSet st.storage pcbId ps = st.storage :=
    storeSet_lookup_self _ _ _ hps
  obtain ⟨storage, cursor, undoing⟩ := st
  simp only at hcur hps hset
  subst hcur
  simp only [createSnapshot, hps, Option.getD_some, truncateOnCursor]
  rw [hfront]
  simp [hid, hset]

/-- C5 witness: a concrete duplicate creation with reordered records on a
cursor-clear board is a strict no-op. -/
theorem createSnapshot_dedup_noop_of_cursor_clear_witness :
    createSnapshot
      ⟨[("b", ⟨[], [mkSnapshot 1 "b" "" "a" false
          [⟨1, "n", 0, 0, 0, 1, 0, 2⟩, ⟨2, "n", 0, 0, 0, 2, 0, 2⟩] []]⟩)],
       none, false⟩ "b" ""
      [⟨2, "n", 0, 0, 0, 2, 0, 2⟩, ⟨1, "n", 0, 0, 0, 1, 0, 2⟩] [] 5 "x" false =
      (⟨[("b", ⟨[], [mkSnapshot 1 "b" "" "a" false
          [⟨1, "n", 0, 0, 0, 1, 0, 2⟩, ⟨2, "n", 0, 0, 0, 2, 0, 2⟩] []]⟩)],
        none, false⟩, none) :=
  createSnapshot_dedup_noop_of_cursor_clear _ _ _ _ _ _ _ _
    ⟨[], [mkSnapshot 1 "b" "" "a" false
      [⟨1, "n", 0, 0, 0, 1, 0, 2⟩, ⟨2, "n", 0, 0, 0, 2, 0, 2⟩] []]⟩
    (mkSnapshot 1 "b" "" "a" false
      [⟨1, "n", 0, 0, 0, 1, 0, 2⟩, ⟨2, "n", 0, 0, 0, 2, 0, 2⟩] []) []
    rfl (by decide) (by decide) (by decide) (by decide) (by decide) (by decide)

/-- C5 counterexample: with a pending undo cursor on the older automatic
snapshot, a `createSnapshot` whose capture is identical to the current
front of the automatic list still truncates the list, inserts the new
snapshot and returns it, so the call is not a no-op as the claim states
for every board state. -/
theorem createSnapshot_dedup_claim_cex :
    isSnapshotDataIdentical c5Front
      (mkSnapshot 30 "b" "" "x" false c5Capture []) = true ∧
    (createSnapshot c5State "b" "" c5Capture [] 30 "x" false).2 ≠ none ∧
    (createSnapshot c5State "b" "" c5Capture [] 30 "x" false).1.storage ≠
      c5State.storage := by decide

/-! ### C8: undo with a stale cursor id -/

lemma findIdxJS_eq_none {α : Type} (p : α → Bool) :
    ∀ l : List α, (∀ t ∈ l, p t = false) → findIdxJS p l = none
  | [], _ => rfl
  | a :: l, h => by
      simp only [findIdxJS, h a (List.mem_cons_self a l), Bool.false_eq_true,
        if_false]
      rw [findIdxJS_eq_none p l (fun t ht => h t (List.mem_cons_of_mem a ht))]
      rfl

/-- C8 counterexample: on a board with one automatic snapshot (id 1) and
an undo cursor holding the stale id 99, `undoLastOperation` does not
report "no undo available": it restores the most recent automatic
snapshot and moves the cursor, so the state changes. -/
theorem undo_stale_cursor_claim_cex :
    (undoLastOperation c8State "b" "" [] [] true true 50).2 =
      UndoResult.undone 1 ∧
    (undoLastOperation c8State "b" "" [] [] true true 50).1.lastRestoredId =
      some 1 ∧
    (undoLastOperation c8State "b" "" [] [] true true 50).2 ≠
      UndoResult.noHistory ∧
    (undoLastOperation c8State "b" "" [] [] true true 50).2 ≠
      UndoResult.endOfHistory := by decide

/-- C8 (amended): when the undo cursor holds an id that no snapshot of
the board's automatic list has, `undoLastOperation` falls back to start
index 0 and restores the most recent automatic snapshot, setting the
cursor to its id; only an empty automatic list reports that no undo is
available. -/
theorem undo_stale_cursor_restores_front (st : SnapState)
    (pcbId pcbName : String) (curL : List LineRec) (curA : List ArcRec)
    (cm cn : Bool) (bn : ℕ) (ps : PcbSnapshotStorage) (s : RoutingSnapshot)
    (rest : List RoutingSnapshot) (rid : ℕ)
    (hlock : st.undoing = false)
    (hps : storeLookup st.storage pcbId = some ps)
    (hauto : ps.auto = s :: rest)
    (hcur : st.lastRestoredId = some rid)
    (hstale : ∀ t ∈ ps.auto, t.id ≠ rid)
    (hfind : findSnapshot st.storage s.id = some s)
    (hboard : s.pcbId = pcbId) :
    undoLastOperation st pcbId pcbName curL curA cm cn bn =
      ({ st with lastRestoredId := some s.id }, UndoResult.undone s.id) := by
  have hidx : findIdxJS (fun t => t.id == rid) (s :: rest) = none := by
    refine findIdxJS_eq_none _ _ (fun t ht => ?_)
    rw [hauto] at hstale
    exact beq_eq_false_iff_ne.mpr (hstale t ht)
  have hmm : (!(s.pcbId == "") && !(s.pcbId == pcbId)) = false := by
    rw [hboard]
    simp
  simp only [undoLastOperation, hlock, Bool.false_eq_true, if_false, hps,
    hauto, hcur, hidx, nthJS, restoreSnapshot, hfind, hmm]
  simp

/-- C8 witness for the amended behavior, at the concrete stale-cursor
state. -/
theorem undo_stale_cursor_restores_front_witness :
    undoLastOperation c8State "b" "" [] [] true true 50 =
      ({ c8State with lastRestoredId := some 1 }, UndoResult.undone 1) :=
  undo_stale_cursor_restores_front c8State "b" "" [] [] true true 50
    ⟨[], [c8Snap]⟩ c8Snap [] 99 rfl (by decide) rfl rfl (by decide)
    (by decide) rfl

/-! ### C10: restore of a same-board snapshot does not touch the store -/

/-- C10: a `restoreSnapshot` whose target snapshot records the current
board's id takes no forced pre-restore backup and leaves the snapshot
store (every board's manual and automatic lists) and the undo lock
unchanged; only the undo cursor and the board primitives are affected. -/
theorem restoreSnapshot_store_frame (st : SnapState)
    (currentPcbId currentPcbName : String) (curL : List LineRec)
    (curA : List ArcRec) (cm cn : Bool) (bn sid : ℕ)
    (toast reqC : Bool) (snap : RoutingSnapshot)
    (hfind : findSnapshot st.storage sid = some snap)
    (hboard : snap.pcbId = currentPcbId) :
    (restoreSnapshot st currentPcbId currentPcbName curL curA cm cn bn sid
        toast reqC).1.storage = st.storage ∧
    (restoreSnapshot st currentPcbId currentPcbName curL curA cm cn bn sid
        toast reqC).1.undoing = st.undoing := by
  have hmm : (!(snap.pcbId == "") && !(snap.pcbId == currentPcbId)) = false := by
    rw [hboard]
    simp
  simp only [restoreSnapshot, hfind, hmm, Bool.false_eq_true, if_false]
  cases hc : (if reqC then cn else true) <;> simp [hc]

/-- C10 witness: restoring the only snapshot of its own board changes
neither list of the store. -/
theorem restoreSnapshot_store_frame_witness :
    (restoreSnapshot c8State "b" "" [] [] true true 50 1 true false).1.storage =
      c8State.storage ∧
    (restoreSnapshot c8State "b" "" [] [] true true 50 1 true false).1.undoing =
      c8State.undoing :=
  restoreSnapshot_store_frame c8State "b" "" [] [] true true 50 1 true false
    c8Snap (by decide) rfl

/-! ### C6: branch truncation after create, create, undo, create -/

lemma storeLookup_single (b : String) (ps : PcbSnapshotStorage) :
    storeLookup [(b, ps)] b = some ps := by
  simp [storeLookup]

lemma storeSet_single (b : String) (x v : PcbSnapshotStorage) :
    storeSet [(b, x)] b v = [(b, v)] := by
  simp [storeSet]

lemma finalName_empty (n : String) : finalName "" n = n := by
  simp [finalName]

/-- C6: starting from an empty store, after automatic snapshot 1,
automatic snapshot 2 (named as an `After` snapshot with
pairwise-distinct contents and ids), an undo (which skips snapshot 2 and
restores snapshot 1) and a third automatic snapshot, the automatic list
is exactly `[snapshot 3, snapshot 1]`: the snapshot the undo skipped
over is gone and the list's first entry is the snapshot created last. -/
theorem undo_branch_truncation (b n1 n2 n3 : String) (L1 L2 L3 : List LineRec)
    (A1 A2 A3 : List ArcRec) (t1 t2 t3 : ℕ) (curL : List LineRec)
    (curA : List ArcRec)
    (h21 : t2 ≠ t1) (h23 : t2 ≠ t3)
    (hAfter : nameEndsAfter n2 = true)
    (h12 : isSnapshotDataIdentical (mkSnapshot t1 b "" n1 false L1 A1)
      (mkSnapshot t2 b "" n2 false L2 A2) = false)
    (h13 : isSnapshotDataIdentical (mkSnapshot t1 b "" n1 false L1 A1)
      (mkSnapshot t3 b "" n3 false L3 A3) = false) :
    autoOf (undoScenario b L1 L2 L3 A1 A2 A3 t1 t2 t3 n1 n2 n3 curL curA) b =
      [mkSnapshot t3 b "" n3 false L3 A3, mkSnapshot t1 b "" n1 false L1 A1] ∧
    (∀ s ∈ autoOf (undoScenario b L1 L2 L3 A1 A2 A3 t1 t2 t3 n1 n2 n3 curL curA) b,
      s.id ≠ t2) ∧
    (autoOf (undoScenario b L1 L2 L3 A1 A2 A3 t1 t2 t3 n1 n2 n3 curL curA) b).head? =
      some (mkSnapshot t3 b "" n3 false L3 A3) := by
  set s1 := mkSnapshot t1 b "" n1 false L1 A1 with hs1
  set s2 := mkSnapshot t2 b "" n2 false L2 A2 with hs2
  set s3 := mkSnapshot t3 b "" n3 false L3 A3 with hs3
  have hid1 : s1.id = t1 := by rw [hs1]; rfl
  have hid2 : s2.id = t2 := by rw [hs2]; rfl
  have hid3 : s3.id = t3 := by rw [hs3]; rfl
  have hpcb1 : s1.pcbId = b := by rw [hs1]; rfl
  have hname2 : s2.name = n2 := by rw [hs2]; exact finalName_empty n2
  have hne21 : (s2.id == t1) = false := by
    rw [hid2]; exact beq_eq_false_iff_ne.mpr h21
  have heq11 : (s1.id == t1) = true := by rw [hid1]; exact beq_self_eq_true t1
  have e1 : (createSnapshot ⟨[], none, false⟩ b "" L1 A1 t1 n1 false).1 =
      ⟨[(b, ⟨[], [s1]⟩)], none, false⟩ := by
    rw [hs1]; rfl
  have e2 : (createSnapshot ⟨[(b, ⟨[], [s1]⟩)], none, false⟩
      b "" L2 A2 t2 n2 false).1 =
      ⟨[(b, ⟨[], [s2, s1]⟩)], none, false⟩ := by
    simp only [createSnapshot, storeLookup_single, Option.getD_some,
      truncateOnCursor]
    rw [← hs2]
    simp [h12, storeSet_single, SNAPSHOT_LIMIT]
  have hf1 : List.find? (fun s : RoutingSnapshot => s.id == t1) [s2, s1] =
      some s1 := by
    rw [@List.find?_cons_of_neg _ (fun s : RoutingSnapshot => s.id == t1) s2
      [s1] (by simp [hne21]),
      @List.find?_cons_of_pos _ (fun s : RoutingSnapshot => s.id == t1) s1
      [] heq11]
  have hfind : findSnapshot [(b, ⟨[], [s2, s1]⟩)] t1 = some s1 := by
    simp only [findSnapshot, List.find?_nil]
    rw [hf1]
  have e3 : (undoLastOperation ⟨[(b, ⟨[], [s2, s1]⟩)], none, false⟩
      b "" curL curA false false 0).1 =
      ⟨[(b, ⟨[], [s2, s1]⟩)], some t1, false⟩ := by
    have hname : nameEndsAfter s2.name = true := by rw [hname2]; exact hAfter
    simp only [undoLastOperation, Bool.false_eq_true, if_false,
      storeLookup_single, hname, if_true, nthJS, restoreSnapshot, hid1, hfind,
      hpcb1, beq_self_eq_true, Bool.not_true, Bool.and_false]
  have hidx : findIdxJS (fun s : RoutingSnapshot => s.id == t1) [s2, s1] =
      some 1 := by
    simp [findIdxJS, hne21, heq11]
  have e4 : (createSnapshot ⟨[(b, ⟨[], [s2, s1]⟩)], some t1, false⟩
      b "" L3 A3 t3 n3 false).1 =
      ⟨[(b, ⟨[], [s3, s1]⟩)], none, false⟩ := by
    simp only [createSnapshot, storeLookup_single, Option.getD_some,
      truncateOnCursor, hidx]
    rw [← hs3]
    simp [h13, storeSet_single, SNAPSHOT_LIMIT]
  have efinal : undoScenario b L1 L2 L3 A1 A2 A3 t1 t2 t3 n1 n2 n3 curL curA =
      ⟨[(b, ⟨[], [s3, s1]⟩)], none, false⟩ := by
    rw [undoScenario]
    rw [e1, e2, e3, e4]
  rw [efinal]
  refine ⟨by simp [autoOf, storeLookup_single], ?_,
    by simp [autoOf, storeLookup_single]⟩
  intro s hs
  simp only [autoOf, storeLookup_single, Option.getD_some, List.mem_cons,
    List.not_mem_nil, or_false] at hs
  rcases hs with h | h
  · rw [h, hid3]
    exact h23.symm
  · rw [h, hid1]
    exact h21.symm

/-- C6 witness: the branch-truncation scenario at concrete contents. -/
theorem undo_branch_truncation_witness :
    autoOf (undoScenario "b" [] [⟨1, "n", 0, 0, 0, 1, 0, 1⟩]
      [⟨2, "n", 0, 0, 0, 2, 0, 1⟩] [] [] [] 1 2 3 "A" "X After" "C" [] []) "b" =
      [mkSnapshot 3 "b" "" "C" false [⟨2, "n", 0, 0, 0, 2, 0, 1⟩] [],
       mkSnapshot 1 "b" "" "A" false [] []] ∧
    (∀ s ∈ autoOf (undoScenario "b" [] [⟨1, "n", 0, 0, 0, 1, 0, 1⟩]
      [⟨2, "n", 0, 0, 0, 2, 0, 1⟩] [] [] [] 1 2 3 "A" "X After" "C" [] []) "b",
      s.id ≠ 2) ∧
    (autoOf (undoScenario "b" [] [⟨1, "n", 0, 0, 0, 1, 0, 1⟩]
      [⟨2, "n", 0, 0, 0, 2, 0, 1⟩] [] [] [] 1 2 3 "A" "X After" "C" [] []) "b").head? =
      some (mkSnapshot 3 "b" "" "C" false [⟨2, "n", 0, 0, 0, 2, 0, 1⟩] []) :=
  undo_branch_truncation "b" "A" "X After" "C" [] [⟨1, "n", 0, 0, 0, 1, 0, 1⟩]
    [⟨2, "n", 0, 0, 0, 2, 0, 1⟩] [] [] [] 1 2 3 [] [] (by decide) (by decide)
    (by decide) (by decide) (by decide)

/-! ### C7: minimality of the diff-based restore -/

lemma mapSet_fresh {α : Type} (m : List (ℕ × α)) (k : ℕ) (v : α)
    (h : ∀ kv ∈ m, kv.1 ≠ k) : mapSet m k v = m ++ [(k, v)] := by
  induction m with
  | nil => rfl
  | cons kv rest ih =>
      have hk : (kv.1 == k) = false :=
        beq_eq_false_iff_ne.mpr (h kv (List.mem_cons_self kv rest))
      simp only [mapSet, hk, Bool.false_eq_true, if_false, List.cons_append]
      rw [ih (fun kv' hkv' => h kv' (List.mem_cons_of_mem kv hkv'))]

lemma foldl_mapSet_eq {α : Type} (key : α → ℕ) :
    ∀ (l : List α) (m : List (ℕ × α)), (l.map key).Nodup →
      (∀ a ∈ l, ∀ kv ∈ m, kv.1 ≠ key a) →
      l.foldl (fun acc x => mapSet acc (key x) x) m =
        m ++ l.map (fun a => (key a, a))
  | [], m, _, _ => by simp
  | a :: l, m, hn, hdisj => by
      rw [List.map_cons, List.nodup_cons] at hn
      rw [List.foldl_cons,
        mapSet_fresh m (key a) a (fun kv hkv => hdisj a (List.mem_cons_self a l) kv hkv),
        foldl_mapSet_eq key l (m ++ [(key a, a)]) hn.2 ?_]
      · simp
      · intro b hb kv hkv
        rcases List.mem_append.mp hkv with hkv | hkv
        · exact hdisj b (List.mem_cons_of_mem a hb) kv hkv
        · simp only [List.mem_singleton] at hkv
          rw [hkv]
          intro hcontra
          refine hn.1 ?_
          rw [show key a = key b from hcontra]
          exact List.mem_map_of_mem key hb

lemma mapOfList_eq {α : Type} (key : α → ℕ) (l : List α)
    (hn : (l.map key).Nodup) :
    mapOfList key l = l.map (fun a => (key a, a)) := by
  have := foldl_mapSet_eq key l [] hn (by simp)
  simpa [mapOfList] using this

lemma foldl_diff_skip {α : Type} (isEq : α → α → Bool) (key : α → ℕ)
    (hrefl : ∀ a, isEq a a = true) :
    ∀ (same : List α) (mrest : List (ℕ × α)) (dels : List ℕ) (creates : List α),
      (same.map key).Nodup →
      (∀ a ∈ same, ∀ kv ∈ mrest, kv.1 ≠ key a) →
      same.foldl (diffStep isEq key)
        (dels, creates, same.map (fun a => (key a, a)) ++ mrest) =
        (dels, creates, mrest)
  | [], mrest, dels, creates, _, _ => by simp
  | a :: same, mrest, dels, creates, hn, hdisj => by
      rw [List.map_cons, List.nodup_cons] at hn
      have hget : mapGet (((key a, a) :: same.map (fun b => (key b, b))) ++ mrest)
          (key a) = some a := by
        rw [List.cons_append, mapGet,
          @List.find?_cons_of_pos _ (fun kv => kv.1 == key a) (key a, a)
            (same.map (fun b => (key b, b)) ++ mrest) (by simp)]
        rfl
      have herase : mapErase (((key a, a) :: same.map (fun b => (key b, b))) ++ mrest)
          (key a) = same.map (fun b => (key b, b)) ++ mrest := by
        rw [List.cons_append, mapErase, List.filter_cons]
        simp only [beq_self_eq_true, Bool.not_true, Bool.false_eq_true, if_false]
        rw [List.filter_eq_self.mpr]
        intro kv hkv
        rcases List.mem_append.mp hkv with hkv | hkv
        · rcases List.mem_map.mp hkv with ⟨b, hb, hkvb⟩
          simp only [← hkvb, Bool.not_eq_eq_eq_not, Bool.not_false]
          exact beq_eq_false_iff_ne.mpr
            (fun hcontra => hn.1 (hcontra ▸ List.mem_map_of_mem key hb))
        · simp only [Bool.not_eq_eq_eq_not, Bool.not_false]
          exact beq_eq_false_iff_ne.mpr
            (hdisj a (List.mem_cons_self a same) kv hkv)
      rw [List.foldl_cons]
      have hstep : diffStep isEq key
          (dels, creates, (a :: same).map (fun b => (key b, b)) ++ mrest) a =
          (dels, creates, same.map (fun b => (key b, b)) ++ mrest) := by
        rw [List.map_cons]
        simp only [diffStep, hget, hrefl a, if_true, herase]
      rw [List.map_cons] at hstep ⊢
      rw [hstep]
      exact foldl_diff_skip isEq key hrefl same mrest dels creates hn.2
        (fun b hb kv hkv => hdisj b (List.mem_cons_of_mem a hb) kv hkv)

/-- Restoring a snapshot whose records of one kind are all unchanged
schedules no deletion and no creation of that kind. -/
lemma computeDiffPart_refl {α : Type} (isEq : α → α → Bool) (key : α → ℕ)
    (hrefl : ∀ a, isEq a a = true) (l : List α)
    (hn : (l.map key).Nodup) :
    computeDiffPart isEq key l l = ([], []) := by
  rw [computeDiffPart, mapOfList_eq key l hn]
  have := foldl_diff_skip isEq key hrefl l [] [] [] hn (by simp)
  rw [List.append_nil] at this
  rw [this]
  rfl

/-- The diff loop on a record list with exactly one record replaced (same
key, records not equal) schedules exactly that key for deletion and the
replacement record for creation. -/
lemma computeDiffPart_one_diff {α : Type} (isEq : α → α → Bool) (key : α → ℕ)
    (hrefl : ∀ a, isEq a a = true) (pre post : List α) (r r' : α)
    (hkey : key r' = key r) (hneq : isEq r' r = false)
    (hnodup : ((pre ++ r :: post).map key).Nodup) :
    computeDiffPart isEq key (pre ++ r' :: post) (pre ++ r :: post) =
      ([key r], [r']) := by
  rw [List.map_append, List.map_cons, List.nodup_append] at hnodup
  obtain ⟨hnpre, hncons, hdisjoint⟩ := hnodup
  rw [List.nodup_cons] at hncons
  have hmap : mapOfList key (pre ++ r :: post) =
      pre.map (fun a => (key a, a)) ++
        ((key r, r) :: post.map (fun a => (key a, a))) := by
    rw [mapOfList_eq key (pre ++ r :: post) ?_, List.map_append, List.map_cons]
    rw [List.map_append, List.map_cons, List.nodup_append]
    exact ⟨hnpre, List.nodup_cons.mpr hncons, hdisjoint⟩
  rw [computeDiffPart, hmap, List.foldl_append]
  have hfold1 : pre.foldl (diffStep isEq key)
      ([], [], pre.map (fun a => (key a, a)) ++
        ((key r, r) :: post.map (fun a => (key a, a)))) =
      ([], [], (key r, r) :: post.map (fun a => (key a, a))) := by
    refine foldl_diff_skip isEq key hrefl pre _ [] [] hnpre ?_
    intro a ha kv hkv
    have hamem : key a ∈ pre.map key := List.mem_map_of_mem key ha
    rcases List.mem_cons.mp hkv with hkv | hkv
    · rw [hkv]
      exact fun hcontra => hdisjoint hamem (hcontra ▸ List.mem_cons_self _ _)
    · rcases List.mem_map.mp hkv with ⟨b, hb, hkvb⟩
      rw [← hkvb]
      exact fun hcontra =>
        hdisjoint hamem (hcontra ▸ List.mem_cons_of_mem _ (List.mem_map_of_mem key hb))
  rw [hfold1, List.foldl_cons]
  have hget : mapGet ((key r, r) :: post.map (fun a => (key a, a))) (key r') =
      some r := by
    rw [mapGet, hkey,
      @List.find?_cons_of_pos _ (fun kv => kv.1 == key r) (key r, r)
        (post.map (fun a => (key a, a))) (by simp)]
    rfl
  have herase : mapErase ((key r, r) :: post.map (fun a => (key a, a))) (key r') =
      post.map (fun a => (key a, a)) := by
    rw [mapErase, hkey, List.filter_cons]
    simp only [beq_self_eq_true, Bool.not_true, Bool.false_eq_true, if_false]
    rw [List.filter_eq_self.mpr]
    intro kv hkv
    rcases List.mem_map.mp hkv with ⟨b, hb, hkvb⟩
    simp only [← hkvb, Bool.not_eq_eq_eq_not, Bool.not_false]
    exact beq_eq_false_iff_ne.mpr
      (fun hcontra => hncons.1 (hcontra ▸ List.mem_map_of_mem key hb))
  have hstep : diffStep isEq key
      ([], [], (key r, r) :: post.map (fun a => (key a, a))) r' =
      ([key r'], [r'], post.map (fun a => (key a, a))) := by
    simp only [diffStep, hget, hneq, Bool.false_eq_true, if_false, herase,
      List.nil_append]
  rw [hstep]
  have hfold2 : post.foldl (diffStep isEq key)
      ([key r'], [r'], post.map (fun a => (key a, a))) =
      ([key r'], [r'], []) := by
    have := foldl_diff_skip isEq key hrefl post [] [key r'] [r'] hncons.2 (by simp)
    rw [List.append_nil] at this
    exact this
  rw [hfold2, hkey]
  rfl

/-- C7: a `restoreSnapshot` whose target differs from the current board
state in exactly one line record's width (same id, all other fields
equal, widths apart by at least the comparison tolerance, all other line
and arc records identical) issues exactly one line deletion and one line
creation and no arc operations. -/
theorem restoreSnapshot_single_width_diff (st : SnapState)
    (currentPcbId currentPcbName : String) (pre post : List LineRec)
    (r : LineRec) (w : ℚ) (curA : List ArcRec) (cm cn : Bool) (bn sid : ℕ)
    (toast : Bool) (snap : RoutingSnapshot)
    (hfind : findSnapshot st.storage sid = some snap)
    (hboard : snap.pcbId = currentPcbId)
    (hlines : snap.lines = pre ++ { r with lineWidth := w } :: post)
    (harcs : snap.arcs = curA)
    (hw : isCloseD w r.lineWidth = false)
    (hnodup : ((pre ++ r :: post).map (fun l : LineRec => l.id)).Nodup)
    (hnodupA : (curA.map (fun a : ArcRec => a.id)).Nodup) :
    restoreSnapshot st currentPcbId currentPcbName (pre ++ r :: post) curA
        cm cn bn sid toast false =
      ({ st with lastRestoredId := some snap.id }, true,
       some { linesToDelete := [r.id], linesToCreate := [{ r with lineWidth := w }],
              arcsToDelete := [], arcsToCreate := [] }) := by
  have hneq : isLineEqual { r with lineWidth := w } r = false := by
    simp [isLineEqual, hw]
  have hlinediff : computeDiffPart isLineEqual (fun l : LineRec => l.id)
      (pre ++ { r with lineWidth := w } :: post) (pre ++ r :: post) =
      ([r.id], [{ r with lineWidth := w }]) :=
    computeDiffPart_one_diff isLineEqual (fun l : LineRec => l.id)
      isLineEqual_refl pre post r { r with lineWidth := w } rfl hneq hnodup
  have harcdiff : computeDiffPart isArcEqual (fun a : ArcRec => a.id)
      curA curA = ([], []) :=
    computeDiffPart_refl isArcEqual (fun a : ArcRec => a.id)
      isArcEqual_refl curA hnodupA
  have hmm : (!(snap.pcbId == "") && !(snap.pcbId == currentPcbId)) = false := by
    rw [hboard]
    simp
  simp only [restoreSnapshot, hfind, hmm, Bool.false_eq_true, if_false,
    Bool.not_false, Bool.not_true, hlines, harcs, hlinediff, harcdiff]

/-- C7 witness: restoring a one-line snapshot that differs from the
current board only in that line's width deletes and recreates exactly
that line. -/
theorem restoreSnapshot_single_width_diff_witness :
    restoreSnapshot
      ⟨[("b", ⟨[], [mkSnapshot 7 "b" "" "w" false [⟨4, "n", 0, 0, 0, 3, 0, 9⟩] []]⟩)],
       none, false⟩ "b" "" [⟨4, "n", 0, 0, 0, 3, 0, 5⟩] [] true true 50 7
      true false =
      (⟨[("b", ⟨[], [mkSnapshot 7 "b" "" "w" false [⟨4, "n", 0, 0, 0, 3, 0, 9⟩] []]⟩)],
        some 7, false⟩, true,
       some { linesToDelete := [4],
              linesToCreate := [⟨4, "n", 0, 0, 0, 3, 0, 9⟩],
              arcsToDelete := [], arcsToCreate := [] }) :=
  restoreSnapshot_single_width_diff
    ⟨[("b", ⟨[], [mkSnapshot 7 "b" "" "w" false [⟨4, "n", 0, 0, 0, 3, 0, 9⟩] []]⟩)],
     none, false⟩ "b" "" [] [] ⟨4, "n", 0, 0, 0, 3, 0, 5⟩ 9 [] true true 50 7
    true (mkSnapshot 7 "b" "" "w" false [⟨4, "n", 0, 0, 0, 3, 0, 9⟩] [])
    (by decide) rfl (by decide) rfl (by decide) (by decide) (by decide)

/-! ### C9: the snapshot-limit invariant -/

lemma capOKb_lookup (st : SnapState) (k : String) (ps : PcbSnapshotStorage)
    (h : capOKb st = true) (hl : storeLookup st.storage k = some ps) :
    ps.manual.length ≤ SNAPSHOT_LIMIT ∧ ps.auto.length ≤ SNAPSHOT_LIMIT := by
  obtain ⟨kv, hfind, hkv⟩ : ∃ kv, st.storage.find? (fun kv => kv.1 == k) = some kv ∧
      kv.2 = ps := by
    cases hf : st.storage.find? (fun kv => kv.1 == k) with
    | none => rw [storeLookup, hf] at hl; cases hl
    | some kv =>
        rw [storeLookup, hf] at hl
        exact ⟨kv, rfl, by injection hl⟩
  have hmem := List.mem_of_find?_eq_some hfind
  have hall := List.all_eq_true.mp h kv hmem
  rw [Bool.and_eq_true, decide_eq_true_eq, decide_eq_true_eq] at hall
  rw [← hkv]
  exact hall

lemma capOKb_of_storeSet (st : SnapState) (k : String) (v : PcbSnapshotStorage)
    (c : Option ℕ) (u : Bool) (h : capOKb st = true)
    (hm : v.manual.length ≤ SNAPSHOT_LIMIT)
    (ha : v.auto.length ≤ SNAPSHOT_LIMIT) :
    capOKb ⟨storeSet st.storage k v, c, u⟩ = true := by
  exact storeSet_all _ st.storage k v h (by simp [hm, ha])

lemma truncateOnCursor_cap (ps : PcbSnapshotStorage) (cursor : Option ℕ)
    (hm : ps.manual.length ≤ SNAPSHOT_LIMIT)
    (ha : ps.auto.length ≤ SNAPSHOT_LIMIT) :
    (truncateOnCursor ps cursor).manual.length ≤ SNAPSHOT_LIMIT ∧
    (truncateOnCursor ps cursor).auto.length ≤ SNAPSHOT_LIMIT := by
  cases cursor with
  | none => exact ⟨hm, ha⟩
  | some rid =>
      simp only [truncateOnCursor]
      cases findIdxJS (fun s => s.id == rid) ps.auto with
      | none => exact ⟨hm, ha⟩
      | some idx =>
          by_cases hpos : 0 < idx
          · simp only [hpos, if_true]
            refine ⟨hm, ?_⟩
            simp only [List.length_drop]
            exact le_trans (Nat.sub_le _ _) ha
          · simp only [hpos, if_false]
            exact ⟨hm, ha⟩

lemma createSnapshot_cap (st : SnapState) (pcbId pcbName : String)
    (lines : List LineRec) (arcs : List ArcRec) (now : ℕ) (name : String)
    (isManual : Bool) (h : capOKb st = true) :
    capOKb (createSnapshot st pcbId pcbName lines arcs now name isManual).1 = true := by
  have h0 : ((storeLookup st.storage pcbId).getD ⟨[], []⟩).manual.length ≤
      SNAPSHOT_LIMIT ∧
      ((storeLookup st.storage pcbId).getD ⟨[], []⟩).auto.length ≤
      SNAPSHOT_LIMIT := by
    cases hl : storeLookup st.storage pcbId with
    | none => simp [SNAPSHOT_LIMIT]
    | some v =>
        simp only [Option.getD_some]
        exact capOKb_lookup st pcbId v h hl
  simp only [createSnapshot]
  have h1 := truncateOnCursor_cap ((storeLookup st.storage pcbId).getD ⟨[], []⟩)
    st.lastRestoredId h0.1 h0.2
  set ps1 := truncateOnCursor ((storeLookup st.storage pcbId).getD ⟨[], []⟩)
    st.lastRestoredId with hps1
  have htake : ∀ (s : RoutingSnapshot) (l : List RoutingSnapshot),
      ((s :: l).take SNAPSHOT_LIMIT).length ≤ SNAPSHOT_LIMIT := by
    intro s l
    rw [List.length_take]
    exact Nat.min_le_left _ _
  have hins : capOKb ⟨storeSet st.storage pcbId
      (if isManual then
        { ps1 with manual := (mkSnapshot now pcbId pcbName name isManual lines arcs ::
            (if isManual then ps1.manual else ps1.auto)).take SNAPSHOT_LIMIT }
       else
        { ps1 with auto := (mkSnapshot now pcbId pcbName name isManual lines arcs ::
            (if isManual then ps1.manual else ps1.auto)).take SNAPSHOT_LIMIT }),
      none, st.undoing⟩ = true := by
    cases isManual with
    | true =>
        simp only [if_true]
        exact capOKb_of_storeSet st pcbId _ none st.undoing h (htake _ _) h1.2
    | false =>
        simp only [Bool.false_eq_true, if_false]
        exact capOKb_of_storeSet st pcbId _ none st.undoing h h1.1 (htake _ _)
  cases htl : (if isManual then ps1.manual else ps1.auto) with
  | nil =>
      rw [htl] at hins
      exact hins
  | cons latest restl =>
      rw [htl] at hins
      by_cases hid : isSnapshotDataIdentical latest
          (mkSnapshot now pcbId pcbName name isManual lines arcs) = true
      · simp only [hid, if_true]
        exact capOKb_of_storeSet st pcbId ps1 none st.undoing h h1.1 h1.2
      · rw [Bool.not_eq_true] at hid
        simp only [hid, Bool.false_eq_true, if_false]
        exact hins

lemma restoreSnapshot_cap (st : SnapState) (currentPcbId currentPcbName : String)
    (curL : List LineRec) (curA : List ArcRec) (cm cn : Bool) (bn sid : ℕ)
    (toast reqC : Bool) (h : capOKb st = true) :
    capOKb (restoreSnapshot st currentPcbId currentPcbName curL curA cm cn bn
      sid toast reqC).1 = true := by
  cases hf : findSnapshot st.storage sid with
  | none =>
      simp only [restoreSnapshot, hf]
      exact h
  | some snap =>
      cases hm : (!(snap.pcbId == "") && !(snap.pcbId == currentPcbId)) with
      | true =>
          cases hcm : cm with
          | false =>
              simp only [restoreSnapshot, hf, hm, hcm, if_true, Bool.not_false]
              exact h
          | true =>
              simp only [restoreSnapshot, hf, hm, hcm, if_true, Bool.not_true,
                Bool.false_eq_true, if_false]
              exact createSnapshot_cap st currentPcbId currentPcbName curL curA
                bn "Backup (Pre-Force Restore)" false h
      | false =>
          cases hc : (if reqC = true then cn else true) with
          | false =>
              simp only [restoreSnapshot, hf, hm, hc, Bool.false_eq_true,
                if_false, Bool.not_false, if_true]
              exact h
          | true =>
              simp only [restoreSnapshot, hf, hm, hc, Bool.false_eq_true,
                if_false, Bool.not_true]
              exact h

lemma undoLastOperation_cap (st : SnapState) (currentPcbId currentPcbName : String)
    (curL : List LineRec) (curA : List ArcRec) (cm cn : Bool) (bn : ℕ)
    (h : capOKb st = true) :
    capOKb (undoLastOperation st currentPcbId currentPcbName curL curA cm cn
      bn).1 = true := by
  cases hu : st.undoing with
  | true =>
      simp only [undoLastOperation, hu, if_true]
      exact h
  | false =>
      cases hl : storeLookup st.storage currentPcbId with
      | none =>
          simp only [undoLastOperation, hu, Bool.false_eq_true, if_false, hl]
          exact h
      | some ps =>
          simp only [undoLastOperation, hu, Bool.false_eq_true, if_false, hl]
          cases hauto : ps.auto with
          | nil => exact h
          | cons first restl =>
              cases hnth : nthJS (first :: restl)
                  (match st.lastRestoredId with
                   | some rid =>
                       match findIdxJS (fun s => s.id == rid) (first :: restl) with
                       | some idx => idx + 1
                       | none => 0
                   | none => if nameEndsAfter first.name then 1 else 0) with
              | none =>
                  simp only [hnth]
                  exact h
              | some target =>
                  cases hr : (restoreSnapshot st currentPcbId currentPcbName
                      curL curA cm cn bn target.id false false).2.1 with
                  | true =>
                      simp only [hnth, hr, if_true]
                      exact restoreSnapshot_cap st currentPcbId currentPcbName
                        curL curA cm cn bn target.id false false h
                  | false =>
                      simp only [hnth, hr, Bool.false_eq_true, if_false]
                      exact restoreSnapshot_cap st currentPcbId currentPcbName
                        curL curA cm cn bn target.id false false h

lemma deleteSnapshot_cap (st : SnapState) (sid : ℕ) (h : capOKb st = true) :
    capOKb (deleteSnapshot st sid) = true := by
  simp only [deleteSnapshot, capOKb, List.all_map] at h ⊢
  rw [List.all_eq_true] at h ⊢
  intro kv hmem
  have := h kv hmem
  rw [Bool.and_eq_true, decide_eq_true_eq, decide_eq_true_eq] at this
  simp only [Function.comp, Bool.and_eq_true, decide_eq_true_eq]
  exact ⟨le_trans (List.length_filter_le _ _) this.1,
    le_trans (List.length_filter_le _ _) this.2⟩

lemma clearSnapshots_cap (st : SnapState) (pcbId : String)
    (h : capOKb st = true) : capOKb (clearSnapshots st pcbId) = true := by
  simp only [clearSnapshots]
  cases hl : storeLookup st.storage pcbId with
  | none => exact h
  | some ps =>
      have := capOKb_lookup st pcbId ps h hl
      exact capOKb_of_storeSet st pcbId _ st.lastRestoredId st.undoing h
        (by simp [SNAPSHOT_LIMIT]) this.2

/-- C9: every snapshot-manager operation preserves the invariant that
each board's manual and automatic lists hold at most `SNAPSHOT_LIMIT`
(20) snapshots, and an insertion into a full list evicts exactly the
oldest (tail) entry. -/
theorem snapshot_cap_invariant :
    (∀ (st : SnapState) (op : StoreOp), capOKb st = true →
      capOKb (applyOp st op) = true) ∧
    (∀ (st : SnapState) (pcbId pcbName : String) (lines : List LineRec)
      (arcs : List ArcRec) (now : ℕ) (name : String) (isManual : Bool)
      (ps : PcbSnapshotStorage) (front : RoutingSnapshot)
      (rest : List RoutingSnapshot),
      st.lastRestoredId = none →
      storeLookup st.storage pcbId = some ps →
      (if isManual then ps.manual else ps.auto) = front :: rest →
      (front :: rest).length = SNAPSHOT_LIMIT →
      isSnapshotDataIdentical front
        (mkSnapshot now pcbId pcbName name isManual lines arcs) = false →
      targetListOf (createSnapshot st pcbId pcbName lines arcs now name
          isManual).1 pcbId isManual =
        mkSnapshot now pcbId pcbName name isManual lines arcs ::
          (front :: rest).dropLast) := by
  constructor
  · intro st op h
    cases op with
    | create a b c d e f g => exact createSnapshot_cap st a b c d e f g h
    | restore a b c d e f g h' i j =>
        exact restoreSnapshot_cap st a b c d e f g h' i j h
    | del sid => exact deleteSnapshot_cap st sid h
    | clear p => exact clearSnapshots_cap st p h
    | undo a b c d e f g => exact undoLastOperation_cap st a b c d e f g h
  · intro st pcbId pcbName lines arcs now name isManual ps front rest hcur
      hps htl hlen hid
    simp only [createSnapshot, hps, Option.getD_some, hcur, truncateOnCursor,
      htl, hid, Bool.false_eq_true, if_false]
    rw [targetListOf]
    cases isManual with
    | true =>
        simp only [if_true, storeLookup_storeSet, Option.getD_some]
        rw [show SNAPSHOT_LIMIT = 19 + 1 from rfl, List.take_succ_cons,
          List.dropLast_eq_take, hlen]
        rfl
    | false =>
        simp only [Bool.false_eq_true, if_false, storeLookup_storeSet,
          Option.getD_some]
        rw [show SNAPSHOT_LIMIT = 19 + 1 from rfl, List.take_succ_cons,
          List.dropLast_eq_take, hlen]
        rfl

/-- C9 witness: deleting from a full store keeps the cap, and creating on
a board whose automatic list is full inserts at the head and evicts the
oldest entry. -/
theorem snapshot_cap_invariant_witness :
    (capOKb c9State = true → capOKb (applyOp c9State (StoreOp.del 1)) = true) ∧
    targetListOf (createSnapshot c9State "b" "" [] [] 200 "n" false).1 "b"
        false =
      mkSnapshot 200 "b" "" "n" false [] [] :: (c9Front :: c9Rest).dropLast :=
  ⟨fun h => snapshot_cap_invariant.1 c9State (StoreOp.del 1) h,
   snapshot_cap_invariant.2 c9State "b" "" [] [] 200 "n" false
     ⟨[], c9Front :: c9Rest⟩ c9Front c9Rest rfl (by decide) (by decide)
     (by decide) (by decide)⟩

/-! ### C3 and C4: width-transition length bound and width easing -/

lemma createWidthTransition_eq (point direction : RPoint) (w1 w2 : ℝ)
    (layer : ℕ) (net : String) (ntl ratio : ℝ) (maxSeg : ℕ)
    (hlen : ¬ Real.sqrt (direction.x ^ 2 + direction.y ^ 2) < 0.001)
    (hL : ¬ wtLength w1 w2 ntl ratio < 1) :
    createWidthTransition point direction w1 w2 layer net ntl ratio maxSeg =
      (List.range (wtSegments w1 w2 ntl ratio maxSeg)).map (fun i =>
        { p1 := { x := point.x + direction.x / Real.sqrt (direction.x ^ 2 + direction.y ^ 2) *
                    ((i : ℝ) / (wtSegments w1 w2 ntl ratio maxSeg : ℝ) * wtLength w1 w2 ntl ratio)
                  y := point.y + direction.y / Real.sqrt (direction.x ^ 2 + direction.y ^ 2) *
                    ((i : ℝ) / (wtSegments w1 w2 ntl ratio maxSeg : ℝ) * wtLength w1 w2 ntl ratio) }
          p2 := { x := point.x + direction.x / Real.sqrt (direction.x ^ 2 + direction.y ^ 2) *
                    (((i : ℝ) + 1) / (wtSegments w1 w2 ntl ratio maxSeg : ℝ) * wtLength w1 w2 ntl ratio)
                  y := point.y + direction.y / Real.sqrt (direction.x ^ 2 + direction.y ^ 2) *
                    (((i : ℝ) + 1) / (wtSegments w1 w2 ntl ratio maxSeg : ℝ) * wtLength w1 w2 ntl ratio) }
          width := max w1 w2 - (max w1 w2 - min w1 w2) *
            smootherStep (((i : ℝ) + 1) / (wtSegments w1 w2 ntl ratio maxSeg : ℝ))
          layer := layer
          net := net }) := by
  simp only [createWidthTransition]
  rw [if_neg hlen, if_neg hL]

lemma wtSegments_pos (w1 w2 ntl ratio : ℝ) (maxSeg : ℕ) :
    1 ≤ wtSegments w1 w2 ntl ratio maxSeg := by
  rw [wtSegments]
  have h1 : 1 ≤ (if maxSeg = 0 then 30 else maxSeg) := by
    by_cases h : maxSeg = 0
    · simp [h]
    · simp only [h, if_false]
      omega
  have h2 : 1 ≤ min (if maxSeg = 0 then 30 else maxSeg)
      (max 5 (max (⌈wtLength w1 w2 ntl ratio / 2⌉.toNat)
        (⌈(max w1 w2 - min w1 w2) / 2⌉.toNat))) :=
    Nat.le_min.mpr ⟨h1, le_trans (by norm_num) (Nat.le_max_left 5 _)⟩
  by_cases h5 : wtLength w1 w2 ntl ratio < 5
  · simp only [h5, if_true]
    exact Nat.le_min.mpr ⟨h2, by norm_num⟩
  · simp only [h5, if_false]
    exact h2

lemma dist_param (px py ux uy a b : ℝ) (hu : ux ^ 2 + uy ^ 2 = 1) :
    dist { x := px + ux * a, y := py + uy * a }
      { x := px + ux * b, y := py + uy * b } = |a - b| := by
  rw [dist]
  have expand : (px + ux * a - (px + ux * b)) ^ 2 +
      (py + uy * a - (py + uy * b)) ^ 2 = (ux ^ 2 + uy ^ 2) * (a - b) ^ 2 := by
    ring
  rw [show ({ x := px + ux * a, y := py + uy * a } : RPoint).x -
      ({ x := px + ux * b, y := py + uy * b } : RPoint).x = px + ux * a - (px + ux * b) from rfl,
    show ({ x := px + ux * a, y := py + uy * a } : RPoint).y -
      ({ x := px + ux * b, y := py + uy * b } : RPoint).y = py + uy * a - (py + uy * b) from rfl,
    expand, hu, one_mul, Real.sqrt_sq_eq_abs]

lemma chainLength_map_range (f : ℕ → WTSeg) (n : ℕ) (c : ℝ)
    (h : ∀ i, dist (f i).p1 (f i).p2 = c) :
    chainLength ((List.range n).map f) = n * c := by
  rw [chainLength, List.map_map]
  have hfun : (fun s : WTSeg => dist s.p1 s.p2) ∘ f = fun _ => c :=
    funext (fun i => h i)
  rw [hfun, List.map_const', List.length_range, List.sum_replicate, nsmul_eq_mul]

lemma createWidthTransition_chainLength (point direction : RPoint) (w1 w2 : ℝ)
    (layer : ℕ) (net : String) (ntl ratio : ℝ) (maxSeg : ℕ)
    (hlen : ¬ Real.sqrt (direction.x ^ 2 + direction.y ^ 2) < 0.001)
    (hL : ¬ wtLength w1 w2 ntl ratio < 1) :
    chainLength (createWidthTransition point direction w1 w2 layer net ntl
      ratio maxSeg) = wtLength w1 w2 ntl ratio := by
  rw [createWidthTransition_eq point direction w1 w2 layer net ntl ratio maxSeg
    hlen hL]
  have hn : 1 ≤ wtSegments w1 w2 ntl ratio maxSeg :=
    wtSegments_pos w1 w2 ntl ratio maxSeg
  have hnR : ((wtSegments w1 w2 ntl ratio maxSeg : ℕ) : ℝ) ≠ 0 := by
    exact_mod_cast Nat.one_le_iff_ne_zero.mp hn
  have hL1 : (1 : ℝ) ≤ wtLength w1 w2 ntl ratio := not_lt.mp hL
  have hlpos : 0 < Real.sqrt (direction.x ^ 2 + direction.y ^ 2) :=
    lt_of_lt_of_le (by norm_num) (not_lt.mp hlen)
  have hpos2 : 0 < direction.x ^ 2 + direction.y ^ 2 := Real.sqrt_pos.mp hlpos
  have hsq : Real.sqrt (direction.x ^ 2 + direction.y ^ 2) ^ 2 =
      direction.x ^ 2 + direction.y ^ 2 := Real.sq_sqrt (le_of_lt hpos2)
  have hu : (direction.x / Real.sqrt (direction.x ^ 2 + direction.y ^ 2)) ^ 2 +
      (direction.y / Real.sqrt (direction.x ^ 2 + direction.y ^ 2)) ^ 2 = 1 := by
    rw [div_pow, div_pow, div_add_div_same, hsq, div_self (ne_of_gt hpos2)]
  rw [chainLength_map_range _ _ (wtLength w1 w2 ntl ratio /
      (wtSegments w1 w2 ntl ratio maxSeg : ℝ)) ?_]
  · field_simp
  · intro i
    simp only
    rw [dist_param point.x point.y
      (direction.x / Real.sqrt (direction.x ^ 2 + direction.y ^ 2))
      (direction.y / Real.sqrt (direction.x ^ 2 + direction.y ^ 2))
      ((i : ℝ) / (wtSegments w1 w2 ntl ratio maxSeg : ℝ) * wtLength w1 w2 ntl ratio)
      (((i : ℝ) + 1) / (wtSegments w1 w2 ntl ratio maxSeg : ℝ) * wtLength w1 w2 ntl ratio)
      hu]
    have hdiff : (i : ℝ) / (wtSegments w1 w2 ntl ratio maxSeg : ℝ) *
        wtLength w1 w2 ntl ratio -
        ((i : ℝ) + 1) / (wtSegments w1 w2 ntl ratio maxSeg : ℝ) *
        wtLength w1 w2 ntl ratio =
        -(wtLength w1 w2 ntl ratio / (wtSegments w1 w2 ntl ratio maxSeg : ℝ)) := by
      rw [div_mul_eq_mul_div, div_mul_eq_mul_div, div_sub_div_same]
      rw [show (i : ℝ) * wtLength w1 w2 ntl ratio -
        ((i : ℝ) + 1) * wtLength w1 w2 ntl ratio = -(wtLength w1 w2 ntl ratio)
        from by ring, neg_div]
    rw [hdiff, abs_neg, abs_of_nonneg]
    exact div_nonneg (le_trans zero_le_one hL1) (Nat.cast_nonneg _)

/-- C3 (amended): whenever a taper chain is actually created (direction
long enough, computed length at least 1), the chain's total length equals
`min(widthDifference * r, 0.9 * narrowTrackLength)` where `r` is the
configured `widthTransitionRatio` when nonzero and the source's fallback
1.5 when the setting is zero (falsy); in particular the taper never
exceeds 90% of the narrow track's length. -/
theorem width_transition_length_bound (point direction : RPoint) (w1 w2 : ℝ)
    (layer : ℕ) (net : String) (ntl ratio : ℝ) (maxSeg : ℕ)
    (hlen : ¬ Real.sqrt (direction.x ^ 2 + direction.y ^ 2) < 0.001)
    (hL : ¬ min ((max w1 w2 - min w1 w2) * (if ratio = 0 then 1.5 else ratio))
      (ntl * 0.9) < 1) :
    chainLength (createWidthTransition point direction w1 w2 layer net ntl
        ratio maxSeg) =
      min ((max w1 w2 - min w1 w2) * (if ratio = 0 then 1.5 else ratio))
        (ntl * 0.9) ∧
    chainLength (createWidthTransition point direction w1 w2 layer net ntl
        ratio maxSeg) ≤ 0.9 * ntl := by
  have h := createWidthTransition_chainLength point direction w1 w2 layer net
    ntl ratio maxSeg hlen hL
  refine ⟨h, ?_⟩
  rw [h, wtLength]
  calc min ((max w1 w2 - min w1 w2) * (if ratio = 0 then 1.5 else ratio))
        (ntl * 0.9) ≤ ntl * 0.9 := min_le_right _ _
    _ = 0.9 * ntl := mul_comm _ _

/-- C3 counterexample: with `widthTransitionRatio` set to 0, a junction
of widths 10 and 30 on a narrow track of length 20 creates a chain of
total length 18 (the `|| 1.5` fallback applies), while the claim's
formula `min(widthDifference * ratio, 0.9 * narrowTrackLength)` gives
`min(0, 18) = 0`. -/
theorem width_transition_length_claim_cex :
    chainLength (createWidthTransition { x := 0, y := 0 } { x := 0, y := -20 }
        10 30 1 "n" 20 0 25) = 18 ∧
    (18 : ℝ) ≠ min ((30 - 10) * (0 : ℝ)) (0.9 * 20) := by
  have hsqrt : Real.sqrt ((0 : ℝ) ^ 2 + (-20 : ℝ) ^ 2) = 20 := by
    rw [show ((0 : ℝ) ^ 2 + (-20 : ℝ) ^ 2) = 20 ^ 2 by norm_num,
      Real.sqrt_sq (by norm_num)]
  have hlen : ¬ Real.sqrt ((0 : ℝ) ^ 2 + (-20 : ℝ) ^ 2) < 0.001 := by
    rw [hsqrt]
    norm_num
  have hwt : wtLength 10 30 20 0 = 18 := by
    rw [wtLength]
    rw [if_pos rfl, max_eq_right (by norm_num : (10 : ℝ) ≤ 30),
      min_eq_left (by norm_num : (10 : ℝ) ≤ 30)]
    rw [min_eq_right (by norm_num : (20 : ℝ) * 0.9 ≤ (30 - 10) * 1.5)]
    norm_num
  have hL : ¬ wtLength 10 30 20 0 < 1 := by
    rw [hwt]
    norm_num
  constructor
  · rw [createWidthTransition_chainLength { x := 0, y := 0 } { x := 0, y := -20 }
      10 30 1 "n" 20 0 25 hlen hL, hwt]
  · rw [min_eq_left (by norm_num : (30 - 10) * (0 : ℝ) ≤ 0.9 * 20)]
    norm_num

/-- C4: whenever a taper chain is created, its sub-segment widths are
`wideWidth - widthDiff * smootherStep(t)` at each sub-segment's end
parameter `t = (i+1)/segments`, and the final sub-segment's width equals
the narrow track's width exactly (for every width pair and segment
count). -/
theorem width_transition_smootherstep (point direction : RPoint) (w1 w2 : ℝ)
    (layer : ℕ) (net : String) (ntl ratio : ℝ) (maxSeg : ℕ)
    (hlen : ¬ Real.sqrt (direction.x ^ 2 + direction.y ^ 2) < 0.001)
    (hL : ¬ min ((max w1 w2 - min w1 w2) * (if ratio = 0 then 1.5 else ratio))
      (ntl * 0.9) < 1) :
    (createWidthTransition point direction w1 w2 layer net ntl ratio
        maxSeg).map (fun s => s.width) =
      (List.range (createWidthTransition point direction w1 w2 layer net ntl
        ratio maxSeg).length).map (fun (i : ℕ) =>
        max w1 w2 - (max w1 w2 - min w1 w2) *
          smootherStep (((i : ℝ) + 1) /
            ((createWidthTransition point direction w1 w2 layer net ntl ratio
              maxSeg).length : ℝ))) ∧
    ((createWidthTransition point direction w1 w2 layer net ntl ratio
        maxSeg).map (fun s => s.width)).getLast? = some (min w1 w2) := by
  have he := createWidthTransition_eq point direction w1 w2 layer net ntl ratio
    maxSeg hlen hL
  have hlength : (createWidthTransition point direction w1 w2 layer net ntl
      ratio maxSeg).length = wtSegments w1 w2 ntl ratio maxSeg := by
    rw [he, List.length_map, List.length_range]
  have hwidths : (createWidthTransition point direction w1 w2 layer net ntl ratio
      maxSeg).map (fun s => s.width) =
      (List.range (wtSegments w1 w2 ntl ratio maxSeg)).map (fun (i : ℕ) =>
        max w1 w2 - (max w1 w2 - min w1 w2) *
          smootherStep (((i : ℝ) + 1) / (wtSegments w1 w2 ntl ratio maxSeg : ℝ))) := by
    rw [he, List.map_map]
    rfl
  have hn : 1 ≤ wtSegments w1 w2 ntl ratio maxSeg :=
    wtSegments_pos w1 w2 ntl ratio maxSeg
  constructor
  · rw [hwidths, hlength]
  · rw [hwidths]
    have hrange : List.range (wtSegments w1 w2 ntl ratio maxSeg) =
        List.range (wtSegments w1 w2 ntl ratio maxSeg - 1) ++
          [wtSegments w1 w2 ntl ratio maxSeg - 1] := by
      conv_lhs => rw [show wtSegments w1 w2 ntl ratio maxSeg =
        (wtSegments w1 w2 ntl ratio maxSeg - 1) + 1 by omega]
      exact List.range_succ _
    rw [hrange, List.map_append, List.map_singleton, List.getLast?_concat]
    have hcast : ((wtSegments w1 w2 ntl ratio maxSeg - 1 : ℕ) : ℝ) + 1 =
        (wtSegments w1 w2 ntl ratio maxSeg : ℝ) := by
      rw [Nat.cast_sub hn]
      simp
    have hnR : ((wtSegments w1 w2 ntl ratio maxSeg : ℕ) : ℝ) ≠ 0 := by
      exact_mod_cast Nat.one_le_iff_ne_zero.mp hn
    rw [hcast, div_self hnR]
    rw [show smootherStep 1 = 1 by rw [smootherStep]; norm_num, mul_one,
      sub_sub_cancel]

lemma demo_dir_len : ¬ Real.sqrt ((0 : ℝ) ^ 2 + (-20 : ℝ) ^ 2) < 0.001 := by
  rw [show ((0 : ℝ) ^ 2 + (-20 : ℝ) ^ 2) = 20 ^ 2 by norm_num,
    Real.sqrt_sq (by norm_num : (0 : ℝ) ≤ 20)]
  norm_num

lemma demo_wt_len : ¬ min ((max (10 : ℝ) 30 - min (10 : ℝ) 30) *
    (if (1.5 : ℝ) = 0 then 1.5 else 1.5)) (20 * 0.9) < 1 := by
  rw [if_neg (by norm_num : ¬ (1.5 : ℝ) = 0),
    max_eq_right (by norm_num : (10 : ℝ) ≤ 30),
    min_eq_left (by norm_num : (10 : ℝ) ≤ 30),
    min_eq_right (by norm_num : (20 : ℝ) * 0.9 ≤ (30 - 10) * 1.5)]
  norm_num

/-- C3 witness: a created taper (widths 10 and 30, ratio 1.5, narrow
track of length 20) has total length `min(30, 18) = 18 ≤ 0.9 * 20`. -/
theorem width_transition_length_bound_witness :
    chainLength (createWidthTransition { x := 0, y := 0 } { x := 0, y := -20 }
        10 30 1 "n" 20 1.5 25) =
      min ((max (10 : ℝ) 30 - min (10 : ℝ) 30) *
        (if (1.5 : ℝ) = 0 then 1.5 else 1.5)) (20 * 0.9) ∧
    chainLength (createWidthTransition { x := 0, y := 0 } { x := 0, y := -20 }
        10 30 1 "n" 20 1.5 25) ≤ 0.9 * 20 :=
  width_transition_length_bound { x := 0, y := 0 } { x := 0, y := -20 } 10 30 1
    "n" 20 1.5 25 demo_dir_len demo_wt_len

/-- C4 witness: the taper of the concrete scenario follows the
smootherstep widths and ends exactly at the narrow width. -/
theorem width_transition_smootherstep_witness :
    (createWidthTransition { x := 0, y := 0 } { x := 0, y := -20 } 10 30 1 "n"
        20 1.5 25).map (fun s => s.width) =
      (List.range (createWidthTransition { x := 0, y := 0 } { x := 0, y := -20 }
        10 30 1 "n" 20 1.5 25).length).map (fun (i : ℕ) =>
        max (10 : ℝ) 30 - (max (10 : ℝ) 30 - min (10 : ℝ) 30) *
          smootherStep (((i : ℝ) + 1) /
            ((createWidthTransition { x := 0, y := 0 } { x := 0, y := -20 } 10
              30 1 "n" 20 1.5 25).length : ℝ))) ∧
    ((createWidthTransition { x := 0, y := 0 } { x := 0, y := -20 } 10 30 1 "n"
        20 1.5 25).map (fun s => s.width)).getLast? = some (min (10 : ℝ) 30) :=
  width_transition_smootherstep { x := 0, y := 0 } { x := 0, y := -20 } 10 30 1
    "n" 20 1.5 25 demo_dir_len demo_wt_len

/-! ### C1 and C2: corner rounding -/

lemma sqrt_of_sq (a b : ℝ) (h : a = b ^ 2) (hb : 0 ≤ b) : Real.sqrt a = b := by
  rw [h, Real.sqrt_sq hb]

lemma arg_pos_im (x y : ℝ) (hx : x = 0) (hy : 0 < y) :
    Complex.arg { re := x, im := y } = Real.pi / 2 :=
  Complex.arg_eq_pi_div_two_iff.mpr ⟨hx, hy⟩

lemma arg_pos_re (x y : ℝ) (hx : 0 ≤ x) (hy : y = 0) :
    Complex.arg { re := x, im := y } = 0 :=
  Complex.arg_eq_zero_iff.mpr ⟨hx, hy⟩

/-- The while-loop normalization of `getAngleBetween` leaves an angle
already in `(-180, 180]` unchanged. -/
lemma normDeg_of_mem (a : ℝ) (h1 : -180 < a) (h2 : a ≤ 180) : normDeg a = a := by
  rw [normDeg]
  have hc : ⌈a / 360 - 1 / 2⌉ = 0 := by
    rw [Int.ceil_eq_zero_iff]
    constructor
    · show (-1 : ℝ) < a / 360 - 1 / 2
      nlinarith
    · show a / 360 - 1 / 2 ≤ 0
      nlinarith
  rw [hc]
  norm_num

/-- The per-corner computation on the right-angle corner of the
`(0,0) - (10,0) - (10,10)` path with 10-unit legs: for any radius between
the 0.01 cutoff and the 50% clamp, the tangent distance equals the
radius, the tangent points sit at distance `r` from the corner along each
leg, and the sweep is +90 degrees. -/
lemma cornerData_rightangle (r : ℝ) (h1 : 0.01 < r) (h2 : r ≤ 5) :
    cornerData { x := 0, y := 0 } { x := 10, y := 0 } { x := 10, y := 10 } r =
      some { actualD := r, pStart := { x := 10 - r, y := 0 },
             pEnd := { x := 10, y := r }, swept := 90 } := by
  simp only [cornerData]
  have hm1 : Real.sqrt (((0 : ℝ) - 10) ^ 2 + ((0 : ℝ) - 0) ^ 2) = 10 :=
    sqrt_of_sq _ _ (by norm_num) (by norm_num)
  have hm2 : Real.sqrt (((10 : ℝ) - 10) ^ 2 + ((10 : ℝ) - 0) ^ 2) = 10 :=
    sqrt_of_sq _ _ (by norm_num) (by norm_num)
  rw [hm1, hm2]
  have hdot : (((0 : ℝ) - 10) * ((10 : ℝ) - 10) + ((0 : ℝ) - 0) * ((10 : ℝ) - 0)) /
      ((10 : ℝ) * 10) = 0 := by norm_num
  rw [hdot]
  have harc : Real.arccos (max (-1) (min 1 (0 : ℝ))) = Real.pi / 2 := by
    rw [min_eq_right (by norm_num : (0 : ℝ) ≤ 1),
      max_eq_right (by norm_num : (-1 : ℝ) ≤ 0), Real.arccos_zero]
  rw [harc]
  have hdeg : Real.pi / 2 * 180 / Real.pi = 90 := by
    field_simp
    ring
  rw [hdeg]
  rw [if_neg (by norm_num : ¬ ((90 : ℝ) > 170 ∨ (90 : ℝ) < 10))]
  rw [show Real.pi / 2 / 2 = Real.pi / 4 by ring, Real.tan_pi_div_four,
    div_one, min_self, show (10 : ℝ) * 0.5 = 5 by norm_num,
    min_eq_left h2, if_pos (by exact h1)]
  have hswept : getAngleBetween { x := -((0 : ℝ) - 10), y := -((0 : ℝ) - 0) }
      { x := (10 : ℝ) - 10, y := (10 : ℝ) - 0 } = 90 := by
    rw [getAngleBetween, getAngle, getAngle]
    rw [arg_pos_im ((10 : ℝ) - 10 - 0) ((10 : ℝ) - 0 - 0) (by norm_num)
      (by norm_num)]
    rw [arg_pos_re (-((0 : ℝ) - 10) - 0) (-((0 : ℝ) - 0) - 0) (by norm_num)
      (by norm_num)]
    rw [show Real.pi / 2 * 180 / Real.pi - 0 * 180 / Real.pi = 90 from by
      field_simp
      ring]
    exact normDeg_of_mem 90 (by norm_num) (by norm_num)
  rw [hswept]
  rw [Option.some.injEq]
  rw [show (lerp { x := 10, y := 0 } { x := 0, y := 0 } (r / 10) : RPoint) =
      { x := 10 - r, y := 0 } from by
    rw [lerp, RPoint.mk.injEq]
    constructor <;> ring]
  rw [show (lerp { x := 10, y := 0 } { x := 10, y := 10 } (r / 10) : RPoint) =
      { x := 10, y := r } from by
    rw [lerp, RPoint.mk.injEq]
    constructor <;> ring]

/-- C2 counterexample: at the right-angle corner of the
`(0,0) - (10,0) - (10,10)` path (both legs of length 10) with radius 4.8,
the tangent distance actually used is 4.8 — more than 45% of either
adjacent segment's length — so the claimed 45% clamp does not hold. -/
theorem corner_clamp_claim_cex :
    cornerData { x := 0, y := 0 } { x := 10, y := 0 } { x := 10, y := 10 } 4.8 =
      some { actualD := 4.8, pStart := { x := 10 - 4.8, y := 0 },
             pEnd := { x := 10, y := 4.8 }, swept := 90 } ∧
    dist { x := 10, y := 0 } { x := 0, y := 0 } = 10 ∧
    dist { x := 10, y := 0 } { x := 10, y := 10 } = 10 ∧
    ¬ ((4.8 : ℝ) ≤ 0.45 * 10) := by
  refine ⟨cornerData_rightangle 4.8 (by norm_num) (by norm_num), ?_, ?_,
    by norm_num⟩
  · rw [dist]
    exact sqrt_of_sq _ _ (by norm_num) (by norm_num)
  · rw [dist]
    exact sqrt_of_sq _ _ (by norm_num) (by norm_num)

/-- C2 (amended): whenever `smoothRouting` rounds an interior corner, the
tangent distance it uses is clamped to at most 50% of the shorter of the
two adjacent segments' lengths — hence at most half of each. -/
theorem corner_clamp_half_min (pPrev pCorner pNext : RPoint) (radius : ℝ)
    (out : CornerOut)
    (h : cornerData pPrev pCorner pNext radius = some out) :
    out.actualD ≤ 0.5 * dist pCorner pPrev ∧
    out.actualD ≤ 0.5 * dist pCorner pNext := by
  have hd1 : dist pCorner pPrev =
      Real.sqrt ((pPrev.x - pCorner.x) ^ 2 + (pPrev.y - pCorner.y) ^ 2) := by
    rw [dist, show (pCorner.x - pPrev.x) ^ 2 + (pCorner.y - pPrev.y) ^ 2 =
      (pPrev.x - pCorner.x) ^ 2 + (pPrev.y - pCorner.y) ^ 2 from by ring]
  have hd2 : dist pCorner pNext =
      Real.sqrt ((pNext.x - pCorner.x) ^ 2 + (pNext.y - pCorner.y) ^ 2) := by
    rw [dist, show (pCorner.x - pNext.x) ^ 2 + (pCorner.y - pNext.y) ^ 2 =
      (pNext.x - pCorner.x) ^ 2 + (pNext.y - pCorner.y) ^ 2 from by ring]
  simp only [cornerData] at h
  split at h
  · cases h
  · split at h
    · rw [Option.some.injEq] at h
      rw [← h]
      simp only
      constructor
      · refine le_trans (min_le_right _ _) ?_
        rw [hd1, mul_comm]
        exact mul_le_mul_of_nonneg_left (min_le_left _ _)
          (by norm_num : (0 : ℝ) ≤ 0.5)
      · refine le_trans (min_le_right _ _) ?_
        rw [hd2, mul_comm]
        exact mul_le_mul_of_nonneg_left (min_le_right _ _)
          (by norm_num : (0 : ℝ) ≤ 0.5)
    · cases h

/-- C2 witness: at the concrete right-angle corner with radius 2 the
clamp bound holds. -/
theorem corner_clamp_half_min_witness :
    ({ actualD := 2, pStart := { x := 10 - 2, y := 0 },
       pEnd := { x := 10, y := 2 }, swept := 90 } : CornerOut).actualD ≤
      0.5 * dist { x := 10, y := 0 } { x := 0, y := 0 } ∧
    ({ actualD := 2, pStart := { x := 10 - 2, y := 0 },
       pEnd := { x := 10, y := 2 }, swept := 90 } : CornerOut).actualD ≤
      0.5 * dist { x := 10, y := 0 } { x := 10, y := 10 } :=
  corner_clamp_half_min { x := 0, y := 0 } { x := 10, y := 0 }
    { x := 10, y := 10 } 2 _ (cornerData_rightangle 2 (by norm_num) (by norm_num))

lemma dist_c1_first : dist { x := 0, y := 0 } { x := 8, y := 0 } = 8 := by
  rw [dist]
  exact sqrt_of_sq _ _ (by norm_num) (by norm_num)

lemma dist_c1_last : dist { x := 10, y := 2 } { x := 10, y := 10 } = 8 := by
  rw [dist]
  exact sqrt_of_sq _ _ (by norm_num) (by norm_num)

lemma cornerData_c1 :
    cornerData { x := 0, y := 0 } { x := 10, y := 0 } { x := 10, y := 10 } 2 =
      some { actualD := 2, pStart := { x := 8, y := 0 },
             pEnd := { x := 10, y := 2 }, swept := 90 } := by
  rw [cornerData_rightangle 2 (by norm_num) (by norm_num)]
  norm_num

lemma roundLoop_c1 :
    roundLoop 2 { x := 0, y := 0 }
      [{ x := 0, y := 0 }, { x := 10, y := 0 }, { x := 10, y := 10 }] =
      ([PathItem.line { x := 0, y := 0 } { x := 8, y := 0 },
        PathItem.arc { x := 8, y := 0 } { x := 10, y := 2 } 90],
       { x := 10, y := 2 }) := by
  simp only [roundLoop, cornerData_c1]

lemma smoothPathPrims_c1 :
    smoothPathPrims
      [{ x := 0, y := 0 }, { x := 10, y := 0 }, { x := 10, y := 10 }] 2 10 =
      [Prim.line { x := 0, y := 0 } { x := 8, y := 0 } 10,
       Prim.arc { x := 8, y := 0 } { x := 10, y := 2 } 90 10,
       Prim.line { x := 10, y := 2 } { x := 10, y := 10 } 10] := by
  simp only [smoothPathPrims, List.length_cons, List.length_nil, roundLoop_c1,
    List.getLast]
  rw [if_pos (by norm_num : 3 ≤ 0 + 1 + 1 + 1)]
  simp only [List.cons_append, List.nil_append]
  simp only [createPrims, List.foldr_cons, List.foldr_nil]
  simp only [dist_c1_first, dist_c1_last]
  rw [if_pos (by norm_num : (8 : ℝ) > 0.001),
    if_pos (by norm_num : (8 : ℝ) > 0.001)]

/-- C1: for the 3-point right-angle path (0,0)→(10,0)→(10,10) with track
width 10 and an effective corner radius of 2 board units, the rounding
pass emits exactly three primitives in order — a line from (0,0) to
(8,0), an arc from (8,0) to (10,2) with sweep magnitude 90°, and a line
from (10,2) to (10,10) — and schedules exactly the two original line
segments for deletion. -/
theorem smooth_three_point_path :
    smoothGroup
      [⟨⟨0, 0⟩, ⟨10, 0⟩, 10, 1, false, none⟩,
       ⟨⟨10, 0⟩, ⟨10, 10⟩, 10, 2, false, none⟩] 2 =
      [([Prim.line { x := 0, y := 0 } { x := 8, y := 0 } 10,
         Prim.arc { x := 8, y := 0 } { x := 10, y := 2 } 90 10,
         Prim.line { x := 10, y := 2 } { x := 10, y := 10 } 10],
        [1, 2], ([] : List ℕ))] := by
  have hex : extractPaths
      [⟨⟨0, 0⟩, ⟨10, 0⟩, 10, 1, false, none⟩,
       ⟨⟨10, 0⟩, ⟨10, 10⟩, 10, 2, false, none⟩] =
      [{ points := [⟨0, 0⟩, ⟨10, 0⟩, ⟨10, 10⟩], ids := [1, 2],
         width := 10 }] := by decide
  have hdel1 : lineIdsToDelete
      [⟨⟨0, 0⟩, ⟨10, 0⟩, 10, 1, false, none⟩,
       ⟨⟨10, 0⟩, ⟨10, 10⟩, 10, 2, false, none⟩] [1, 2] = [1, 2] := by decide
  have hdel2 : polyIdsToDelete
      [⟨⟨0, 0⟩, ⟨10, 0⟩, 10, 1, false, none⟩,
       ⟨⟨10, 0⟩, ⟨10, 10⟩, 10, 2, false, none⟩] [1, 2] = [] := by decide
  simp only [smoothGroup, hex, List.map_cons, List.map_nil, toR,
    Rat.cast_ofNat, Rat.cast_zero, hdel1, hdel2, smoothPathPrims_c1]

end EasyEDA
